import Mathlib

/-!
# Verification of the Photogrammetry-3DTiles tiling core

Shallow embedding of the tiling engine (`src/tiling/*.rs`, `src/types/*.rs`)
of the Photogrammetry-3DTiles repository, together with proofs and
refutations of the frozen specification claims.

Modelling conventions:

* `f32` / `f64` values are modelled as exact rationals (`ℚ`).  All control
  flow in the embedded code branches on comparisons, which are decidable
  over `ℚ`.
* `f64::sqrt` returns an IEEE double, i.e. a rational number; it is
  modelled as an abstract function `ℚ → ℚ` carried in the `Ext` bundle of
  external collaborators, so every definition stays executable.
* Rust `Vec<T>` becomes `List`, `HashMap` becomes an association list in
  insertion order, and indexing `v[i]` (which panics out of range in Rust)
  becomes `List.getD` with a default; theorems carry in-range hypotheses
  where the value matters.
* External library calls (the `image` crate, `meshopt`, the GLB byte
  encoder of `glb_writer.rs` and the pixel-compositing stage, none of
  which any claim inspects) are abstracted as total function parameters in
  the `Ext` bundle.
-/

namespace PhotoTiler

/-- Round half away from zero, the semantics of Rust's `f64::round`. -/
def roundHalfAway (x : ℚ) : ℤ :=
  if 0 ≤ x then ⌊x + 1/2⌋ else -⌊-x + 1/2⌋

/-- A 3-component vector of rationals (models `[f64; 3]` / `[f32; 3]`). -/
structure V3 where
  x : ℚ
  y : ℚ
  z : ℚ
deriving DecidableEq, Repr

/-- Component access by axis number (0 = X, 1 = Y, 2 = Z). -/
def V3.get (v : V3) (axis : ℕ) : ℚ :=
  if axis = 0 then v.x else if axis = 1 then v.y else v.z

/-- A 2-component vector of rationals (models `[f64; 2]` / UV pairs). -/
structure V2 where
  u : ℚ
  v : ℚ
deriving DecidableEq, Repr

/-- A 4-component vector of rationals (models `[f64; 4]` / RGBA colors). -/
structure V4 where
  r : ℚ
  g : ℚ
  b : ℚ
  a : ℚ
deriving DecidableEq, Repr

/-- `types/mesh.rs::IndexedMesh`: flat parallel attribute buffers. -/
structure IndexedMesh where
  positions : List ℚ
  normals : List ℚ
  uvs : List ℚ
  colors : List ℚ
  indices : List ℕ
  material_index : Option ℕ
deriving DecidableEq, Repr

/-- `Default::default()` for `IndexedMesh`: all buffers empty. -/
def IndexedMesh.empty : IndexedMesh :=
  ⟨[], [], [], [], [], none⟩

/-- `IndexedMesh::vertex_count`: `positions.len() / 3`. -/
def IndexedMesh.vertex_count (m : IndexedMesh) : ℕ :=
  m.positions.length / 3

/-- `IndexedMesh::triangle_count`: `indices.len() / 3`. -/
def IndexedMesh.triangle_count (m : IndexedMesh) : ℕ :=
  m.indices.length / 3

/-- `IndexedMesh::has_normals`. -/
def IndexedMesh.has_normals (m : IndexedMesh) : Bool :=
  !m.normals.isEmpty

/-- `IndexedMesh::has_uvs`. -/
def IndexedMesh.has_uvs (m : IndexedMesh) : Bool :=
  !m.uvs.isEmpty

/-- `IndexedMesh::has_colors`. -/
def IndexedMesh.has_colors (m : IndexedMesh) : Bool :=
  !m.colors.isEmpty

/-- `IndexedMesh::is_empty`: no positions. -/
def IndexedMesh.is_empty (m : IndexedMesh) : Bool :=
  m.positions.isEmpty

/-- `types/tile.rs::BoundingBox`: axis-aligned box in double precision. -/
structure BoundingBox where
  min : V3
  max : V3
deriving DecidableEq, Repr

/-- `BoundingBox::center`. -/
def BoundingBox.center (b : BoundingBox) : V3 :=
  ⟨(b.min.x + b.max.x) * (1/2), (b.min.y + b.max.y) * (1/2),
   (b.min.z + b.max.z) * (1/2)⟩

/-- `BoundingBox::half_extents`. -/
def BoundingBox.half_extents (b : BoundingBox) : V3 :=
  ⟨(b.max.x - b.min.x) * (1/2), (b.max.y - b.min.y) * (1/2),
   (b.max.z - b.min.z) * (1/2)⟩

/-- The squared space diagonal of a box (the argument of the `sqrt` call in
`BoundingBox::diagonal`). -/
def BoundingBox.diagonalSq (b : BoundingBox) : ℚ :=
  (b.max.x - b.min.x) * (b.max.x - b.min.x)
    + (b.max.y - b.min.y) * (b.max.y - b.min.y)
    + (b.max.z - b.min.z) * (b.max.z - b.min.z)

/-- `BoundingBox::diagonal`, parameterized by the `f64::sqrt` model. -/
def BoundingBox.diagonal (sqrtQ : ℚ → ℚ) (b : BoundingBox) : ℚ :=
  sqrtQ b.diagonalSq

/-- `types/material.rs::TextureData`. -/
structure TextureData where
  data : List ℕ
  mime_type : List Char
  width : ℕ
  height : ℕ
deriving DecidableEq, Repr

/-- `types/material.rs::PBRMaterial` (fields the tiling core reads). -/
structure PBRMaterial where
  name : List Char
  base_color : V4
  metallic : ℚ
  roughness : ℚ
  base_color_texture : Option ℕ
deriving DecidableEq, Repr

/-- `types/material.rs::MaterialLibrary`. -/
structure MaterialLibrary where
  materials : List PBRMaterial
  textures : List TextureData
deriving DecidableEq, Repr

/-- `config.rs::TilingConfig`. -/
structure TilingConfig where
  max_triangles_per_tile : ℕ
  max_depth : ℕ
deriving DecidableEq, Repr

/-- `config.rs::TextureConfig` (format and quality are consumed only by the
abstracted texture encoder, so they are carried opaquely as numbers). -/
structure TextureConfig where
  format : ℕ
  quality : ℕ
  max_size : ℕ
  enabled : Bool
deriving DecidableEq, Repr

/-- A decoded RGBA image of the `image` crate (`RgbaImage`): width, height
and the flat byte buffer. -/
structure RgbaImage where
  width : ℕ
  height : ℕ
  data : List ℕ
deriving DecidableEq, Repr

/-- `RgbaImage::from_raw`: succeeds iff the buffer length matches `w·h·4`. -/
def RgbaImage.fromRaw (w h : ℕ) (data : List ℕ) : Option RgbaImage :=
  if data.length = w * h * 4 then some ⟨w, h, data⟩ else none

/-- `atlas_repacker.rs::UvIsland`.  The `f32::INFINITY` initial bounds of
island detection are modelled by `Option` (`none` = not yet updated); a
detected island always has at least one face, so its bounds are `some`. -/
structure UvIsland where
  faces : List ℕ
  uv_min : V2
  uv_max : V2
deriving DecidableEq, Repr

/-- `atlas_repacker.rs::Placement`. -/
structure Placement where
  island_idx : ℕ
  x : ℕ
  y : ℕ
  inner_w : ℕ
  inner_h : ℕ
  padding : ℕ
deriving DecidableEq, Repr

/-- External collaborators of the tiling core, abstracted as total
functions so that every embedded definition is executable:

* `sqrtQ` models `f64::sqrt` (an IEEE double result is a rational);
* `loadFromMemory` models `image::load_from_memory ∘ to_rgba8`;
* `compositeAtlas` models `atlas_repacker::composite_atlas`, the pixel
  compositing stage whose output feeds only the texture encoder (no claim
  inspects pixel contents);
* `resizeImage` models `image::imageops::resize`;
* `compressTexture` models `texture_compress::compress_texture`;
* `meshoptSimplify` models `meshopt::simplify` (returns the new index
  buffer and writes the achieved error);
* `optimizeVertexCache` models `meshopt::optimize_vertex_cache`;
* `writeGlb` models `glb_writer::write_glb`, the GLB byte encoder (no
  claim inspects GLB bytes). -/
structure Ext where
  sqrtQ : ℚ → ℚ
  loadFromMemory : List ℕ → Option RgbaImage
  compositeAtlas : RgbaImage → List UvIsland → List Placement → ℕ → RgbaImage
  resizeImage : RgbaImage → ℕ → ℕ → RgbaImage
  compressTexture : RgbaImage → TextureConfig → TextureData
  meshoptSimplify : List ℕ → List ℚ → ℕ → ℚ → Bool → List ℕ × ℚ
  optimizeVertexCache : List ℕ → ℕ → List ℕ
  writeGlb : IndexedMesh → MaterialLibrary → Option TextureData → List ℕ

/-! ## Triangle clipper (`tiling/triangle_clipper.rs`) -/

/-- `triangle_clipper.rs::ClipVertex`: working vertex in double precision. -/
structure ClipVertex where
  pos : V3
  normal : V3
  uv : V2
  color : V4
deriving DecidableEq, Repr

/-- `triangle_clipper.rs::ClipPlane`. -/
structure ClipPlane where
  axis : ℕ
  value : ℚ
  positive : Bool
deriving DecidableEq, Repr

/-- `PositionKey::from_pos`: quantize a position to the 1 µm grid
(`(pos * 1e6).round() as i64`). -/
def positionKey (p : V3) : ℤ × ℤ × ℤ :=
  (roundHalfAway (p.x * 1000000), roundHalfAway (p.y * 1000000),
   roundHalfAway (p.z * 1000000))

/-- `triangle_clipper.rs::extract_clip_vertex`. -/
def extract_clip_vertex (m : IndexedMesh) (vi : ℕ) : ClipVertex :=
  { pos := ⟨m.positions.getD (vi * 3) 0, m.positions.getD (vi * 3 + 1) 0,
            m.positions.getD (vi * 3 + 2) 0⟩
    normal :=
      if m.has_normals then
        ⟨m.normals.getD (vi * 3) 0, m.normals.getD (vi * 3 + 1) 0,
         m.normals.getD (vi * 3 + 2) 0⟩
      else ⟨0, 0, 0⟩
    uv :=
      if m.has_uvs then
        ⟨m.uvs.getD (vi * 2) 0, m.uvs.getD (vi * 2 + 1) 0⟩
      else ⟨0, 0⟩
    color :=
      if m.has_colors then
        ⟨m.colors.getD (vi * 4) 0, m.colors.getD (vi * 4 + 1) 0,
         m.colors.getD (vi * 4 + 2) 0, m.colors.getD (vi * 4 + 3) 0⟩
      else ⟨0, 0, 0, 0⟩ }

/-- Linear interpolation `a + t·(b − a)`, the `lerp` closure of
`intersect_edge`. -/
def lerpQ (t a b : ℚ) : ℚ := a + t * (b - a)

/-- `triangle_clipper.rs::intersect_edge`: parametric intersection of edge
`a → b` with an axis-aligned plane, interpolating all attributes at the
same parameter `t`; `sqrtQ` models the `f64::sqrt` in the normal
renormalization. -/
def intersect_edge (sqrtQ : ℚ → ℚ) (a b : ClipVertex) (plane : ClipPlane) :
    ClipVertex :=
  let da := a.pos.get plane.axis - plane.value
  let db := b.pos.get plane.axis - plane.value
  let denom := da - db
  let t := if |denom| < 1/10^15 then 1/2 else da / denom
  let pos : V3 :=
    ⟨lerpQ t a.pos.x b.pos.x, lerpQ t a.pos.y b.pos.y,
     lerpQ t a.pos.z b.pos.z⟩
  let n : V3 :=
    ⟨lerpQ t a.normal.x b.normal.x, lerpQ t a.normal.y b.normal.y,
     lerpQ t a.normal.z b.normal.z⟩
  let len := sqrtQ (n.x * n.x + n.y * n.y + n.z * n.z)
  let normal : V3 :=
    if 1/10^12 < len then ⟨n.x / len, n.y / len, n.z / len⟩ else n
  let uv : V2 := ⟨lerpQ t a.uv.u b.uv.u, lerpQ t a.uv.v b.uv.v⟩
  let color : V4 :=
    ⟨lerpQ t a.color.r b.color.r, lerpQ t a.color.g b.color.g,
     lerpQ t a.color.b b.color.b, lerpQ t a.color.a b.color.a⟩
  ⟨pos, normal, uv, color⟩

/-- The `is_inside` closure of `clip_polygon_by_plane`: the inclusion test
with its 1e-10 tolerance. -/
def isInside (plane : ClipPlane) (v : ClipVertex) : Bool :=
  if plane.positive then
    decide (plane.value - 1/10^10 ≤ v.pos.get plane.axis)
  else
    decide (v.pos.get plane.axis ≤ plane.value + 1/10^10)

/-- `triangle_clipper.rs::clip_polygon_by_plane`: one Sutherland–Hodgman
pass over a polygon against a single half-plane. -/
def clip_polygon_by_plane (sqrtQ : ℚ → ℚ) (polygon : List ClipVertex)
    (plane : ClipPlane) : List ClipVertex :=
  if polygon.isEmpty then []
  else
    let n := polygon.length
    let dflt : ClipVertex := ⟨⟨0,0,0⟩, ⟨0,0,0⟩, ⟨0,0⟩, ⟨0,0,0,0⟩⟩
    (List.range n).flatMap fun i =>
      let current := polygon.getD i dflt
      let next := polygon.getD ((i + 1) % n) dflt
      match isInside plane current, isInside plane next with
      | true, true => [next]
      | true, false => [intersect_edge sqrtQ current next plane]
      | false, true => [intersect_edge sqrtQ current next plane, next]
      | false, false => []

/-- `triangle_clipper.rs::clip_triangle_to_octant`: clip against the six
AABB half-planes, with the source's early exit on an empty polygon. -/
def clip_triangle_to_octant (sqrtQ : ℚ → ℚ) (tri : List ClipVertex)
    (octant_bounds : BoundingBox) : List ClipVertex :=
  let planes : List ClipPlane :=
    [⟨0, octant_bounds.min.x, true⟩, ⟨0, octant_bounds.max.x, false⟩,
     ⟨1, octant_bounds.min.y, true⟩, ⟨1, octant_bounds.max.y, false⟩,
     ⟨2, octant_bounds.min.z, true⟩, ⟨2, octant_bounds.max.z, false⟩]
  planes.foldl
    (fun polygon plane =>
      if polygon.isEmpty then polygon
      else clip_polygon_by_plane sqrtQ polygon plane)
    tri

/-- `triangle_clipper.rs::fan_triangulate`: fan from vertex 0, dropping
degenerate polygons of fewer than three vertices. -/
def fan_triangulate (polygon : List ClipVertex) :
    List (ClipVertex × ClipVertex × ClipVertex) :=
  if polygon.length < 3 then []
  else
    let dflt : ClipVertex := ⟨⟨0,0,0⟩, ⟨0,0,0⟩, ⟨0,0⟩, ⟨0,0,0,0⟩⟩
    (List.range (polygon.length - 2)).map fun k =>
      (polygon.getD 0 dflt, polygon.getD (k + 1) dflt,
       polygon.getD (k + 2) dflt)

/-- `triangle_clipper.rs::OctantMeshBuilder`: per-octant accumulator with
position-keyed deduplication (the `HashMap` becomes an association list). -/
structure OctantMeshBuilder where
  positions : List ℚ
  normals : List ℚ
  uvs : List ℚ
  colors : List ℚ
  indices : List ℕ
  dedup : List ((ℤ × ℤ × ℤ) × ℕ)
  has_normals : Bool
  has_uvs : Bool
  has_colors : Bool
deriving DecidableEq, Repr

/-- `OctantMeshBuilder::new`. -/
def OctantMeshBuilder.new (hn hu hc : Bool) : OctantMeshBuilder :=
  ⟨[], [], [], [], [], [], hn, hu, hc⟩

/-- `OctantMeshBuilder::add_vertex`: deduplicate by quantized position,
returning the vertex index and the updated builder. -/
def OctantMeshBuilder.add_vertex (b : OctantMeshBuilder) (v : ClipVertex) :
    ℕ × OctantMeshBuilder :=
  let key := positionKey v.pos
  match b.dedup.lookup key with
  | some idx => (idx, b)
  | none =>
    let idx := b.positions.length / 3
    let b' : OctantMeshBuilder :=
      { b with
        positions := b.positions ++ [v.pos.x, v.pos.y, v.pos.z]
        normals :=
          if b.has_normals then
            b.normals ++ [v.normal.x, v.normal.y, v.normal.z]
          else b.normals
        uvs := if b.has_uvs then b.uvs ++ [v.uv.u, v.uv.v] else b.uvs
        colors :=
          if b.has_colors then
            b.colors ++ [v.color.r, v.color.g, v.color.b, v.color.a]
          else b.colors
        dedup := (key, idx) :: b.dedup }
    (idx, b')

/-- `OctantMeshBuilder::add_triangle`: add three vertices and emit the
triangle unless two of the deduplicated indices collapsed. -/
def OctantMeshBuilder.add_triangle (b : OctantMeshBuilder)
    (v0 v1 v2 : ClipVertex) : OctantMeshBuilder :=
  let (ia, b1) := b.add_vertex v0
  let (ib, b2) := b1.add_vertex v1
  let (ic, b3) := b2.add_vertex v2
  if ia ≠ ib ∧ ib ≠ ic ∧ ia ≠ ic then
    { b3 with indices := b3.indices ++ [ia, ib, ic] }
  else b3

/-- `OctantMeshBuilder::build`. -/
def OctantMeshBuilder.build (b : OctantMeshBuilder) (mi : Option ℕ) :
    IndexedMesh :=
  ⟨b.positions, b.normals, b.uvs, b.colors, b.indices, mi⟩

/-! ## Octree helpers (`tiling/octree.rs`) -/

/-- `octree.rs::octant_index`: octant of a point relative to a center,
bit pattern `z_hi | y_hi | x_hi`, with `≥ center` meaning the high side. -/
def octant_index (center point : V3) : ℕ :=
  (if center.x ≤ point.x then 1 else 0)
    + (if center.y ≤ point.y then 2 else 0)
    + (if center.z ≤ point.z then 4 else 0)

/-- `octree.rs::child_bounds`: the sub-box of a parent for an octant. -/
def child_bounds (parent : BoundingBox) (octant : ℕ) : BoundingBox :=
  let c := parent.center
  { min := ⟨if octant % 2 = 1 then c.x else parent.min.x,
            if octant / 2 % 2 = 1 then c.y else parent.min.y,
            if octant / 4 % 2 = 1 then c.z else parent.min.z⟩
    max := ⟨if octant % 2 = 1 then parent.max.x else c.x,
            if octant / 2 % 2 = 1 then parent.max.y else c.y,
            if octant / 4 % 2 = 1 then parent.max.z else c.z⟩ }

/-- Split a flat index list into consecutive triples, dropping any
remainder (`chunks_exact(3)`). -/
def chunk3 : List ℕ → List (ℕ × ℕ × ℕ)
  | a :: b :: c :: rest => (a, b, c) :: chunk3 rest
  | _ => []

/-- Replace the element at an index of a list (models `builders[i] = …`). -/
def updAt {α : Type} (l : List α) (i : ℕ) (f : α → α) : List α :=
  l.modify f i

/-- Process one triangle of `split_mesh_clipping`'s main loop, updating the
list of eight octant builders. -/
def splitTriangleStep (sqrtQ : ℚ → ℚ) (mesh : IndexedMesh) (center : V3)
    (child_boxes : List BoundingBox) (builders : List OctantMeshBuilder)
    (tri : ℕ × ℕ × ℕ) : List OctantMeshBuilder :=
  let (i0, i1, i2) := tri
  let p0 : V3 := ⟨mesh.positions.getD (i0 * 3) 0,
                  mesh.positions.getD (i0 * 3 + 1) 0,
                  mesh.positions.getD (i0 * 3 + 2) 0⟩
  let p1 : V3 := ⟨mesh.positions.getD (i1 * 3) 0,
                  mesh.positions.getD (i1 * 3 + 1) 0,
                  mesh.positions.getD (i1 * 3 + 2) 0⟩
  let p2 : V3 := ⟨mesh.positions.getD (i2 * 3) 0,
                  mesh.positions.getD (i2 * 3 + 1) 0,
                  mesh.positions.getD (i2 * 3 + 2) 0⟩
  let oct0 := octant_index center p0
  let oct1 := octant_index center p1
  let oct2 := octant_index center p2
  let v0 := extract_clip_vertex mesh i0
  let v1 := extract_clip_vertex mesh i1
  let v2 := extract_clip_vertex mesh i2
  if oct0 = oct1 ∧ oct1 = oct2 then
    updAt builders oct0 (fun b => b.add_triangle v0 v1 v2)
  else
    (List.range 8).foldl
      (fun bs oct_idx =>
        let cb := child_boxes.getD oct_idx ⟨⟨0,0,0⟩, ⟨0,0,0⟩⟩
        let clipped := clip_triangle_to_octant sqrtQ [v0, v1, v2] cb
        let sub_tris := fan_triangulate clipped
        sub_tris.foldl
          (fun bs' st =>
            updAt bs' oct_idx (fun b => b.add_triangle st.1 st.2.1 st.2.2))
          bs)
      builders

/-- `triangle_clipper.rs::split_mesh_clipping`: split a mesh into eight
octant sub-meshes (fast path for interior triangles, Sutherland–Hodgman
clipping for straddling ones). -/
def split_mesh_clipping (sqrtQ : ℚ → ℚ) (mesh : IndexedMesh)
    (bounds : BoundingBox) : List IndexedMesh :=
  let center := bounds.center
  let child_boxes := (List.range 8).map (child_bounds bounds)
  let builders :=
    List.replicate 8
      (OctantMeshBuilder.new mesh.has_normals mesh.has_uvs mesh.has_colors)
  let final :=
    (chunk3 mesh.indices).foldl
      (splitTriangleStep sqrtQ mesh center child_boxes) builders
  final.map (fun b => b.build mesh.material_index)

/-! ## Octree construction (`tiling/octree.rs`) -/

/-- `octree.rs::OctreeNode`: bounds, resident mesh, and eight optional
children (the Rust `[Option<Box<OctreeNode>>; 8]`). -/
inductive OctreeNode where
  | mk (bounds : BoundingBox) (mesh : IndexedMesh)
      (children : List (Option OctreeNode))

/-- Bounds accessor. -/
def OctreeNode.bounds : OctreeNode → BoundingBox
  | .mk b _ _ => b

/-- Mesh accessor. -/
def OctreeNode.mesh : OctreeNode → IndexedMesh
  | .mk _ m _ => m

/-- Children accessor. -/
def OctreeNode.children : OctreeNode → List (Option OctreeNode)
  | .mk _ _ c => c

/-- `OctreeNode::is_leaf`: all children are `None`. -/
def OctreeNode.is_leaf (n : OctreeNode) : Bool :=
  n.children.all Option.isNone

/-- The recursion of `octree.rs::build_octree_recursive`, structured on
the remaining depth budget `max_depth - depth` (so the definition reduces
definitionally); the `fuel = 0` case coincides with the source's
`depth ≥ max_depth` leaf case, since the budget is exhausted exactly
then. -/
def build_octree_go (sqrtQ : ℚ → ℚ) (max_depth max_triangles : ℕ) :
    ℕ → IndexedMesh → BoundingBox → ℕ → OctreeNode
  | 0, mesh, bounds, _depth => .mk bounds mesh (List.replicate 8 none)
  | fuel + 1, mesh, bounds, depth =>
    if mesh.triangle_count ≤ max_triangles ∨ max_depth ≤ depth then
      .mk bounds mesh (List.replicate 8 none)
    else
      let sub_meshes := split_mesh_clipping sqrtQ mesh bounds
      let children :=
        sub_meshes.enum.map fun p =>
          if p.2.is_empty then none
          else
            some (build_octree_go sqrtQ max_depth max_triangles fuel p.2
              (child_bounds bounds p.1) (depth + 1))
      .mk bounds IndexedMesh.empty children

/-- `octree.rs::build_octree_recursive`: subdivide while the triangle
count exceeds the limit and the depth cap is not reached. -/
def build_octree_recursive (sqrtQ : ℚ → ℚ) (mesh : IndexedMesh)
    (bounds : BoundingBox) (depth max_depth max_triangles : ℕ) :
    OctreeNode :=
  build_octree_go sqrtQ max_depth max_triangles (max_depth - depth) mesh
    bounds depth

/-- `octree.rs::build_octree`. -/
def build_octree (sqrtQ : ℚ → ℚ) (mesh : IndexedMesh) (bounds : BoundingBox)
    (max_depth max_triangles : ℕ) : OctreeNode :=
  build_octree_recursive sqrtQ mesh bounds 0 max_depth max_triangles

/-! ## Mesh simplifier (`tiling/simplifier.rs`) -/

/-- `simplifier.rs::SimplifiedMesh`. -/
structure SimplifiedMesh where
  mesh : IndexedMesh
  achieved_error : ℚ
deriving DecidableEq, Repr

/-- State of `compact_mesh`'s remap pass: the remap table (the `u32::MAX`
sentinel of the source is modelled as `none`) and the next fresh index. -/
def compactRemap (indices : List ℕ) (vertex_count : ℕ) :
    List (Option ℕ) × ℕ :=
  indices.foldl
    (fun st idx =>
      if (st.1.getD idx none).isNone then
        (st.1.set idx (some st.2), st.2 + 1)
      else st)
    (List.replicate vertex_count none, 0)

/-- One iteration of `compact_mesh`'s rebuild loop (`for (old_idx,
&new_idx) in remap.iter().enumerate()`): copy the vertex `old_idx = p.1`
of every present attribute buffer to slot `new_idx = ni` of the
corresponding rebuilt buffer, skipping unreferenced vertices. -/
def compactBufStep (source : IndexedMesh)
    (bufs : List ℚ × List ℚ × List ℚ × List ℚ) (p : ℕ × Option ℕ) :
    List ℚ × List ℚ × List ℚ × List ℚ :=
  match p.2 with
  | none => bufs
  | some ni =>
    let old_idx := p.1
    let ps :=
      ((bufs.1.set (ni * 3)
          (source.positions.getD (old_idx * 3) 0)).set (ni * 3 + 1)
          (source.positions.getD (old_idx * 3 + 1) 0)).set (ni * 3 + 2)
          (source.positions.getD (old_idx * 3 + 2) 0)
    let ns :=
      if source.has_normals then
        ((bufs.2.1.set (ni * 3)
            (source.normals.getD (old_idx * 3) 0)).set (ni * 3 + 1)
            (source.normals.getD (old_idx * 3 + 1) 0)).set (ni * 3 + 2)
            (source.normals.getD (old_idx * 3 + 2) 0)
      else bufs.2.1
    let us :=
      if source.has_uvs then
        (bufs.2.2.1.set (ni * 2)
            (source.uvs.getD (old_idx * 2) 0)).set (ni * 2 + 1)
            (source.uvs.getD (old_idx * 2 + 1) 0)
      else bufs.2.2.1
    let cs :=
      if source.has_colors then
        (((bufs.2.2.2.set (ni * 4)
            (source.colors.getD (old_idx * 4) 0)).set (ni * 4 + 1)
            (source.colors.getD (old_idx * 4 + 1) 0)).set (ni * 4 + 2)
            (source.colors.getD (old_idx * 4 + 2) 0)).set (ni * 4 + 3)
            (source.colors.getD (old_idx * 4 + 3) 0)
      else bufs.2.2.2
    (ps, ns, us, cs)

/-- `simplifier.rs::compact_mesh`: remap indices to drop unreferenced
vertices and rebuild every attribute buffer from the remap. -/
def compact_mesh (indices : List ℕ) (source : IndexedMesh) : IndexedMesh :=
  if indices.isEmpty then
    { IndexedMesh.empty with material_index := source.material_index }
  else
    let vertex_count := source.vertex_count
    let st := compactRemap indices vertex_count
    let remap := st.1
    let new_vertex_count := st.2
    let new_indices := indices.map fun i => (remap.getD i none).getD 0
    let init : List ℚ × List ℚ × List ℚ × List ℚ :=
      (List.replicate (new_vertex_count * 3) 0,
       if source.has_normals then List.replicate (new_vertex_count * 3) 0
       else [],
       if source.has_uvs then List.replicate (new_vertex_count * 2) 0
       else [],
       if source.has_colors then List.replicate (new_vertex_count * 4) 0
       else [])
    let bufs := remap.enum.foldl (compactBufStep source) init
    { positions := bufs.1
      normals := bufs.2.1
      uvs := bufs.2.2.1
      colors := bufs.2.2.2
      indices := new_indices
      material_index := source.material_index }

/-- `simplifier.rs::simplify_mesh`: drive the (abstracted) meshopt
simplifier and vertex-cache optimizer, then compact. -/
def simplify_mesh (E : Ext) (mesh : IndexedMesh) (ratioQ : ℚ)
    (lockBorder : Bool) : SimplifiedMesh :=
  if mesh.is_empty then ⟨IndexedMesh.empty, 0⟩
  else
    let target_count := (⌊(mesh.indices.length : ℚ) * ratioQ⌋).toNat
    let target_count := target_count / 3 * 3
    let res :=
      E.meshoptSimplify mesh.indices mesh.positions target_count (1/100)
        lockBorder
    let new_indices := E.optimizeVertexCache res.1 mesh.vertex_count
    ⟨compact_mesh new_indices mesh, res.2⟩

/-! ## Atlas repacker (`tiling/atlas_repacker.rs`) -/

/-- `atlas_repacker.rs::AtlasResult`. -/
structure AtlasResult where
  mesh : IndexedMesh
  atlas_texture : TextureData
deriving DecidableEq, Repr

/-- Raw-RGB to RGBA expansion of `decode_texture` (`chunks_exact(3)` with
an alpha byte of 255 appended per pixel; a trailing remainder is dropped,
as by `chunks_exact`). -/
def rgbToRgba : List ℕ → List ℕ
  | r :: g :: b :: rest => r :: g :: b :: 255 :: rgbToRgba rest
  | _ => []

/-- `atlas_repacker.rs::decode_texture`: encoded decoders first, then raw
RGBA at `W·H·4`, then raw RGB at `W·H·3`. -/
def decode_texture (E : Ext) (tex : TextureData) : Option RgbaImage :=
  match E.loadFromMemory tex.data with
  | some img => some img
  | none =>
    let pixel_count := tex.width * tex.height
    if tex.data.length = pixel_count * 4 then
      RgbaImage.fromRaw tex.width tex.height tex.data
    else if tex.data.length = pixel_count * 3 then
      RgbaImage.fromRaw tex.width tex.height (rgbToRgba tex.data)
    else none

/-- `atlas_repacker.rs::uv_close`. -/
def uv_close (a b : V2) (eps : ℚ) : Bool :=
  decide (|a.u - b.u| < eps) && decide (|a.v - b.v| < eps)

/-- Append a value to the entry of an association-list multimap (models
`HashMap::entry(k).or_default().push(v)`). -/
def assocPush {κ ν : Type} [DecidableEq κ] :
    List (κ × List ν) → κ → ν → List (κ × List ν)
  | [], k, v => [(k, [v])]
  | (k', vs) :: rest, k, v =>
    if k' = k then (k', vs ++ [v]) :: rest
    else (k', vs) :: assocPush rest k v

/-- `atlas_repacker.rs::build_edge_adjacency`: map each sorted geometric
edge to the faces whose UVs match across it (within 1e-5, in either
vertex order). -/
def build_edge_adjacency (mesh : IndexedMesh) :
    List ((ℕ × ℕ) × List ℕ) :=
  let num_faces := mesh.triangle_count
  let edge_map : List ((ℕ × ℕ) × List (ℕ × V2 × V2)) :=
    (List.range num_faces).foldl
      (fun em face =>
        let verts := [mesh.indices.getD (face * 3) 0,
                      mesh.indices.getD (face * 3 + 1) 0,
                      mesh.indices.getD (face * 3 + 2) 0]
        (List.range 3).foldl
          (fun em' e =>
            let va := verts.getD e 0
            let vb := verts.getD ((e + 1) % 3) 0
            let edge_key := if va < vb then (va, vb) else (vb, va)
            let uv_a : V2 := ⟨mesh.uvs.getD (va * 2) 0,
                              mesh.uvs.getD (va * 2 + 1) 0⟩
            let uv_b : V2 := ⟨mesh.uvs.getD (vb * 2) 0,
                              mesh.uvs.getD (vb * 2 + 1) 0⟩
            assocPush em' edge_key (face, uv_a, uv_b))
          em)
      []
  let eps : ℚ := 1/100000
  edge_map.foldl
    (fun adj entry =>
      let entries := entry.2
      let dflt : ℕ × V2 × V2 := (0, ⟨0, 0⟩, ⟨0, 0⟩)
      let adj_faces :=
        (List.range entries.length).foldl
          (fun af i =>
            (List.range entries.length).foldl
              (fun af' j =>
                if i < j then
                  let ei := entries.getD i dflt
                  let ej := entries.getD j dflt
                  let match_same :=
                    uv_close ei.2.1 ej.2.1 eps && uv_close ei.2.2 ej.2.2 eps
                  let match_swap :=
                    uv_close ei.2.1 ej.2.2 eps && uv_close ei.2.2 ej.2.1 eps
                  if match_same || match_swap then
                    let af2 := if ei.1 ∈ af' then af' else af' ++ [ei.1]
                    if ej.1 ∈ af2 then af2 else af2 ++ [ej.1]
                  else af'
                else af')
              af)
          []
      if adj_faces.isEmpty then adj else adj ++ [(entry.1, adj_faces)])
    []

/-- Fold a new value into an optional running minimum (the
`f32::INFINITY` initial bound of island detection becomes `none`). -/
def optMin (o : Option ℚ) (x : ℚ) : Option ℚ :=
  some (match o with | some p => min p x | none => x)

/-- Fold a new value into an optional running maximum. -/
def optMax (o : Option ℚ) (x : ℚ) : Option ℚ :=
  some (match o with | some p => max p x | none => x)

/-- BFS bookkeeping of `detect_islands`. -/
structure BfsState where
  visited : List Bool
  island_faces : List ℕ
  minU : Option ℚ
  minV : Option ℚ
  maxU : Option ℚ
  maxV : Option ℚ
deriving DecidableEq, Repr

/-- The BFS worklist loop of `detect_islands`: pop a face, record it,
fold its UVs into the island bounds, and enqueue unvisited neighbours.
The `fuel` parameter bounds the number of pops; every pushed face was
freshly marked visited, so `num_faces + 1` pops always suffice. -/
def bfsLoop (mesh : IndexedMesh) (face_adj : List (List ℕ)) :
    ℕ → List ℕ → BfsState → BfsState
  | 0, _, st => st
  | _ + 1, [], st => st
  | fuel + 1, face :: queue, st =>
    let st1 := { st with island_faces := st.island_faces ++ [face] }
    let st2 :=
      (List.range 3).foldl
        (fun s v =>
          let vi := mesh.indices.getD (face * 3 + v) 0
          let u := mesh.uvs.getD (vi * 2) 0
          let vv := mesh.uvs.getD (vi * 2 + 1) 0
          { s with
            minU := optMin s.minU u
            minV := optMin s.minV vv
            maxU := optMax s.maxU u
            maxV := optMax s.maxV vv })
        st1
    let next :=
      (face_adj.getD face []).foldl
        (fun (p : List Bool × List ℕ) nb =>
          if p.1.getD nb false then p else (p.1.set nb true, p.2 ++ [nb]))
        (st2.visited, queue)
    bfsLoop mesh face_adj fuel next.2 { st2 with visited := next.1 }

/-- One iteration of `detect_islands`' outer loop: skip visited start
faces, otherwise run a BFS from `start` and record the island. -/
def islandStep (mesh : IndexedMesh) (face_adj : List (List ℕ))
    (num_faces : ℕ) (st : List Bool × List UvIsland) (start : ℕ) :
    List Bool × List UvIsland :=
  if st.1.getD start false then st
  else
    let st0 : BfsState := ⟨st.1.set start true, [], none, none, none, none⟩
    let b := bfsLoop mesh face_adj (num_faces + 1) [start] st0
    let island : UvIsland :=
      ⟨b.island_faces, ⟨b.minU.getD 0, b.minV.getD 0⟩,
       ⟨b.maxU.getD 0, b.maxV.getD 0⟩⟩
    (b.visited, st.2 ++ [island])

/-- `atlas_repacker.rs::detect_islands`: build face-to-face adjacency from
the edge adjacency and collect BFS components with their UV bounds. -/
def detect_islands (mesh : IndexedMesh)
    (adjacency : List ((ℕ × ℕ) × List ℕ)) : List UvIsland :=
  let num_faces := mesh.triangle_count
  let face_adj : List (List ℕ) :=
    adjacency.foldl
      (fun fa entry =>
        let faces := entry.2
        (List.range faces.length).foldl
          (fun fa' i =>
            (List.range faces.length).foldl
              (fun fa'' j =>
                if i < j then
                  let fi := faces.getD i 0
                  let fj := faces.getD j 0
                  let fa3 :=
                    if fj ∈ fa''.getD fi [] then fa''
                    else fa''.set fi (fa''.getD fi [] ++ [fj])
                  if fi ∈ fa3.getD fj [] then fa3
                  else fa3.set fj (fa3.getD fj [] ++ [fi])
                else fa'')
              fa')
          fa)
      (List.replicate num_faces [])
  let res :=
    (List.range num_faces).foldl (islandStep mesh face_adj num_faces)
      (List.replicate num_faces false, [])
  res.2

/-- One entry of the `sized` vector of `repack_atlas`: island index, inner
pixel dimensions and padding (the Rust `(usize, u32, u32, u32)`). -/
structure SizedIsland where
  idx : ℕ
  w : ℕ
  h : ℕ
  pad : ℕ
deriving DecidableEq, Repr

/-- `atlas_repacker.rs::FreeRect`. -/
structure FreeRect where
  x : ℕ
  y : ℕ
  w : ℕ
  h : ℕ
deriving DecidableEq, Repr

/-- `u32::next_power_of_two` (with `0 → 1`, as in Rust). -/
def nextPow2 (n : ℕ) : ℕ := 2 ^ Nat.clog 2 n

/-- Insert into a sorted list, before the first element `y` with
`le x y`. -/
def insertSorted {α : Type} (le : α → α → Bool) (x : α) :
    List α → List α
  | [] => [x]
  | y :: ys => if le x y then x :: y :: ys else y :: insertSorted le x ys

/-- Stable insertion sort, modelling Rust's stable `sort_by` /
`sort_by_key` for a total comparison. -/
def sortByStable {α : Type} (le : α → α → Bool) : List α → List α
  | [] => []
  | x :: xs => insertSorted le x (sortByStable le xs)

/-- The padded outer dimension used as the sort key of `guillotine_pack`. -/
def paddedMaxDim (s : SizedIsland) : ℕ :=
  max (s.w + s.pad * 2) (s.h + s.pad * 2)

/-- `atlas_repacker.rs::find_bssf`: best-short-side-fit free rectangle. -/
def find_bssf (free_rects : List FreeRect) (w h : ℕ) : Option ℕ :=
  (free_rects.enum.foldl
    (fun (best : Option ℕ × ℕ) p =>
      let rect := p.2
      if w ≤ rect.w ∧ h ≤ rect.h then
        let short_side := min (rect.w - w) (rect.h - h)
        if short_side < best.2 then (some p.1, short_side) else best
      else best)
    (none, 2 ^ 32 - 1)).1

/-- `atlas_repacker.rs::guillotine_split`: push the right and below
leftovers of a placement. -/
def guillotine_split (free_rects : List FreeRect) (rect : FreeRect)
    (w h : ℕ) : List FreeRect :=
  let right_w := rect.w - w
  let below_h := rect.h - h
  let fr1 :=
    if 0 < right_w then free_rects ++ [⟨rect.x + w, rect.y, right_w, h⟩]
    else free_rects
  if 0 < below_h then fr1 ++ [⟨rect.x, rect.y + h, rect.w, below_h⟩]
  else fr1

/-- `atlas_repacker.rs::try_pack`: place every island in order, or fail. -/
def try_pack (order : List ℕ) (sized : List SizedIsland)
    (atlas_w atlas_h : ℕ) : Option (List Placement) :=
  let step :=
    order.foldl
      (fun (st : Option (List FreeRect × List Placement)) idx =>
        match st with
        | none => none
        | some frpl =>
          let s := sized.getD idx ⟨0, 0, 0, 0⟩
          let total_w := s.w + s.pad * 2
          let total_h := s.h + s.pad * 2
          match find_bssf frpl.1 total_w total_h with
          | none => none
          | some bi =>
            let rect := frpl.1.getD bi ⟨0, 0, 0, 0⟩
            let remaining := frpl.1.eraseIdx bi
            some (guillotine_split remaining rect total_w total_h,
                  frpl.2 ++ [⟨s.idx, rect.x, rect.y, s.w, s.h, s.pad⟩]))
      (some ([⟨0, 0, atlas_w, atlas_h⟩], []))
  step.map (·.2)

/-- The grow-and-retry loop of `guillotine_pack`.  Rust loops until the
16384 cap forces placement; starting from dimensions ≥ 64 that takes at
most 9 doublings per axis, so fuel 64 is never exhausted at the call
site. -/
def packLoop (order : List ℕ) (sized : List SizedIsland) :
    ℕ → ℕ → ℕ → List Placement
  | 0, _, _ => []
  | fuel + 1, atlas_w, atlas_h =>
    match try_pack order sized atlas_w atlas_h with
    | some placements => placements
    | none =>
      let w' := if atlas_w ≤ atlas_h then atlas_w * 2 else atlas_w
      let h' := if atlas_w ≤ atlas_h then atlas_h else atlas_h * 2
      if 16384 < w' ∨ 16384 < h' then (try_pack order sized w' h').getD []
      else packLoop order sized fuel w' h'

/-- `atlas_repacker.rs::guillotine_pack`: sort by padded max dimension
descending (stably, as Rust's `sort_by`), seed power-of-two atlas
dimensions floored at 64, and run the grow-and-retry loop. -/
def guillotine_pack (sized : List SizedIsland) : List Placement :=
  let dflt : SizedIsland := ⟨0, 0, 0, 0⟩
  let order :=
    sortByStable
      (fun a b =>
        paddedMaxDim (sized.getD b dflt) ≤ paddedMaxDim (sized.getD a dflt))
      (List.range sized.length)
  let first := order.getD 0 0
  let s0 := sized.getD first dflt
  let atlas_w := max (nextPow2 (s0.w + s0.pad * 2)) 64
  let atlas_h := max (nextPow2 (s0.h + s0.pad * 2)) 64
  packLoop order sized 64 atlas_w atlas_h

/-- `atlas_repacker.rs::compute_atlas_size`. -/
def compute_atlas_size (placements : List Placement) : ℕ :=
  let m :=
    placements.foldl
      (fun (mx : ℕ × ℕ) p =>
        (max mx.1 (p.x + p.inner_w + p.padding * 2),
         max mx.2 (p.y + p.inner_h + p.padding * 2)))
      (0, 0)
  max (nextPow2 (max m.1 m.2)) 1

/-- Insert-or-replace into an association list (models `HashMap::insert`;
later insertions for the same key win). -/
def assocInsert {κ ν : Type} [DecidableEq κ] :
    List (κ × ν) → κ → ν → List (κ × ν)
  | [], k, v => [(k, v)]
  | (k', v') :: rest, k, v =>
    if k' = k then (k, v) :: rest else (k', v') :: assocInsert rest k v

/-- The `island_idx → Placement` lookup map of the remapping and
compositing stages. -/
def placementMap (placements : List Placement) : List (ℕ × Placement) :=
  placements.foldl (fun m p => assocInsert m p.island_idx p) []

/-- Mutable state of `remap_uvs_with_dedup`'s loops. -/
structure RemapState where
  positions : List ℚ
  normals : List ℚ
  uvs : List ℚ
  colors : List ℚ
  indices : List ℕ
  vertex_island : List (Option ℕ)
deriving DecidableEq, Repr

/-- `atlas_repacker.rs::remap_uvs_with_dedup`: rewrite UVs into atlas
space, duplicating vertices shared across islands, with the half-texel
inset. -/
def remap_uvs_with_dedup (mesh : IndexedMesh) (islands : List UvIsland)
    (placements : List Placement) (atlas_size : ℕ) : IndexedMesh :=
  let atlas_f : ℚ := atlas_size
  let pmap := placementMap placements
  let init : RemapState :=
    ⟨mesh.positions, mesh.normals, mesh.uvs, mesh.colors, mesh.indices,
     List.replicate mesh.vertex_count none⟩
  let final :=
    islands.enum.foldl
      (fun st ip =>
        let island_idx := ip.1
        let island := ip.2
        match pmap.lookup island_idx with
        | none => st
        | some placement =>
          let uv_range_u := island.uv_max.u - island.uv_min.u
          let uv_range_v := island.uv_max.v - island.uv_min.v
          let uv_range_u := if uv_range_u < 1/10^8 then 1 else uv_range_u
          let uv_range_v := if uv_range_v < 1/10^8 then 1 else uv_range_v
          island.faces.foldl
            (fun st' face =>
              (List.range 3).foldl
                (fun st'' v =>
                  let original_vi := mesh.indices.getD (face * 3 + v) 0
                  let fi := face * 3 + v
                  let step :=
                    match st''.vertex_island.getD original_vi none with
                    | none =>
                      (original_vi,
                       { st'' with
                         vertex_island :=
                           st''.vertex_island.set original_vi
                             (some island_idx) })
                    | some owner =>
                      if owner = island_idx then (original_vi, st'')
                      else
                        let new_vi := st''.positions.length / 3
                        (new_vi,
                         { st'' with
                           positions :=
                             st''.positions ++
                               [mesh.positions.getD (original_vi * 3) 0,
                                mesh.positions.getD (original_vi * 3 + 1) 0,
                                mesh.positions.getD (original_vi * 3 + 2) 0]
                           normals :=
                             if mesh.has_normals then
                               st''.normals ++
                                 [mesh.normals.getD (original_vi * 3) 0,
                                  mesh.normals.getD (original_vi * 3 + 1) 0,
                                  mesh.normals.getD (original_vi * 3 + 2) 0]
                             else st''.normals
                           uvs :=
                             st''.uvs ++
                               [mesh.uvs.getD (original_vi * 2) 0,
                                mesh.uvs.getD (original_vi * 2 + 1) 0]
                           colors :=
                             if mesh.has_colors then
                               st''.colors ++
                                 [mesh.colors.getD (original_vi * 4) 0,
                                  mesh.colors.getD (original_vi * 4 + 1) 0,
                                  mesh.colors.getD (original_vi * 4 + 2) 0,
                                  mesh.colors.getD (original_vi * 4 + 3) 0]
                             else st''.colors
                           indices := st''.indices.set fi new_vi })
                  let vi := step.1
                  let st3 := step.2
                  let old_u := mesh.uvs.getD (original_vi * 2) 0
                  let old_v := mesh.uvs.getD (original_vi * 2 + 1) 0
                  let norm_u := (old_u - island.uv_min.u) / uv_range_u
                  let norm_v := (old_v - island.uv_min.v) / uv_range_v
                  let new_u :=
                    (norm_u * ((placement.inner_w : ℚ) - 1) + 1/2 +
                        ((placement.x : ℚ) + (placement.padding : ℚ))) /
                      atlas_f
                  let new_v :=
                    (norm_v * ((placement.inner_h : ℚ) - 1) + 1/2 +
                        ((placement.y : ℚ) + (placement.padding : ℚ))) /
                      atlas_f
                  { st3 with
                    uvs := (st3.uvs.set (vi * 2) new_u).set (vi * 2 + 1)
                      new_v })
                st')
            st)
      init
  ⟨final.positions, final.normals, final.uvs, final.colors, final.indices,
   mesh.material_index⟩

/-- `atlas_repacker.rs::repack_atlas`: the per-tile atlas pipeline.
Returns `none` on any missing prerequisite; otherwise sizes, packs,
remaps and (through abstracted collaborators) composites and encodes. -/
def repack_atlas (E : Ext) (mesh : IndexedMesh)
    (materials : MaterialLibrary) (config : TextureConfig) :
    Option AtlasResult :=
  if !mesh.has_uvs then none
  else
    match mesh.material_index with
    | none => none
    | some mat_idx =>
      match materials.materials[mat_idx]? with
      | none => none
      | some mat =>
        match mat.base_color_texture with
        | none => none
        | some tex_idx =>
          match materials.textures[tex_idx]? with
          | none => none
          | some tex =>
            match decode_texture E tex with
            | none => none
            | some source_image =>
              let src_w := source_image.width
              let src_h := source_image.height
              let adjacency := build_edge_adjacency mesh
              let islands := detect_islands mesh adjacency
              if islands.isEmpty then none
              else
                let sized :=
                  islands.enum.map fun ip =>
                    let island := ip.2
                    let u_range := island.uv_max.u - island.uv_min.u
                    let v_range := island.uv_max.v - island.uv_min.v
                    let px_w := (max 1 ⌈u_range * (src_w : ℚ)⌉).toNat
                    let px_h := (max 1 ⌈v_range * (src_h : ℚ)⌉).toNat
                    let px_w :=
                      if config.max_size < px_w then config.max_size
                      else px_w
                    let px_h :=
                      if config.max_size < px_h then config.max_size
                      else px_h
                    let max_dim := max px_w px_h
                    let padding :=
                      if 512 < max_dim then 5
                      else if 128 < max_dim then 3
                      else 2
                    SizedIsland.mk ip.1 px_w px_h padding
                let placements := guillotine_pack sized
                let atlas_size := compute_atlas_size placements
                let new_mesh :=
                  remap_uvs_with_dedup mesh islands placements atlas_size
                let atlas_image :=
                  E.compositeAtlas source_image islands placements
                    atlas_size
                let atlas_image :=
                  if config.max_size < atlas_size then
                    E.resizeImage atlas_image config.max_size
                      config.max_size
                  else atlas_image
                let atlas_texture := E.compressTexture atlas_image config
                some ⟨new_mesh, atlas_texture⟩

/-! ## Tileset builder (`tiling/tileset_writer.rs`, `tiling/lod.rs`) -/

/-- `types/tile.rs::TileContent`: GLB payload bytes plus relative URI. -/
structure TileContent where
  glb_data : List ℕ
  uri : List Char
deriving DecidableEq, Repr

/-- `types/tile.rs::TileNode`: address, depth level, bounds, geometric
error, optional content and ordered children. -/
inductive TileNode where
  | mk (address : List Char) (level : ℕ) (bounds : BoundingBox)
      (geometric_error : ℚ) (content : Option TileContent)
      (children : List TileNode)

/-- Address accessor. -/
def TileNode.address : TileNode → List Char
  | .mk a _ _ _ _ _ => a

/-- Level accessor. -/
def TileNode.level : TileNode → ℕ
  | .mk _ l _ _ _ _ => l

/-- Bounds accessor. -/
def TileNode.bounds : TileNode → BoundingBox
  | .mk _ _ b _ _ _ => b

/-- Geometric-error accessor. -/
def TileNode.geometric_error : TileNode → ℚ
  | .mk _ _ _ g _ _ => g

/-- Content accessor. -/
def TileNode.content : TileNode → Option TileContent
  | .mk _ _ _ _ c _ => c

/-- Children accessor. -/
def TileNode.children : TileNode → List TileNode
  | .mk _ _ _ _ _ cs => cs

/-- `lod.rs::LodLevel`. -/
structure LodLevel where
  level : ℕ
  mesh : IndexedMesh
  geometric_error : ℚ
deriving DecidableEq, Repr

/-- `lod.rs::LodChain`. -/
structure LodChain where
  levels : List LodLevel
  bounds : BoundingBox
deriving DecidableEq, Repr

/-- `tileset_writer.rs::TilesetOutput`. -/
structure TilesetOutput where
  root : TileNode
  root_transform : List ℚ

/-- Split a character list at every occurrence of a separator, with
Rust's `str::split` semantics (`"" → [""]`, a trailing separator yields a
trailing empty part). -/
def splitOnChar (sep : Char) : List Char → List (List Char)
  | [] => [[]]
  | c :: rest =>
    let r := splitOnChar sep rest
    if c = sep then [] :: r
    else
      match r with
      | [] => [[c]]
      | h :: t => (c :: h) :: t

/-- Join character lists with a separator (Rust's `Vec::join`). -/
def joinChar (sep : Char) : List (List Char) → List Char
  | [] => []
  | [s] => s
  | s :: rest => s ++ sep :: joinChar sep rest

/-- One iteration of the accumulating-prefix loop of `address_to_uri`:
extend the accumulator by the next part (with an underscore separator
after the first part) and record it. -/
def pathSegStep (st : List Char × List (List Char)) (part : List Char) :
    List Char × List (List Char) :=
  let accum := st.1 ++ (if st.2.isEmpty then part else '_' :: part)
  (accum, st.2 ++ [accum])

/-- The accumulating-prefix loop of `address_to_uri`: segment `i` is the
first `i+1` underscore-separated parts rejoined with underscores. -/
def pathSegments (parts : List (List Char)) : List (List Char) :=
  (parts.foldl pathSegStep ([], [])).2

/-- `tileset_writer.rs::address_to_uri`: `"root" → tiles/root.glb`, other
addresses become one nested directory per accumulated prefix. -/
def address_to_uri (address : List Char) : List Char :=
  if address = ("root".toList) then ("tiles/root.glb".toList)
  else
    let parts := splitOnChar '_' address
    let dir_path := joinChar '/' (pathSegments parts)
    ("tiles/".toList) ++ dir_path ++ ("/tile.glb".toList)

/-- `tileset_writer.rs::write_tile_glb`: repack the atlas when textures
are enabled and the mesh has UVs, then encode (encoder abstracted). -/
def write_tile_glb (E : Ext) (mesh : IndexedMesh) (mats : MaterialLibrary)
    (tc : TextureConfig) : List ℕ :=
  if tc.enabled && mesh.has_uvs then
    match repack_atlas E mesh mats tc with
    | some r => E.writeGlb r.mesh mats (some r.atlas_texture)
    | none => E.writeGlb mesh mats none
  else E.writeGlb mesh mats none

/-- `tileset_writer.rs::merge_meshes`: concatenate buffers, offset the
second index list, keep optional attributes only when both sides have
them. -/
def merge_meshes (a b : IndexedMesh) : IndexedMesh :=
  if a.is_empty then b
  else if b.is_empty then a
  else
    { positions := a.positions ++ b.positions
      normals :=
        if a.has_normals && b.has_normals then a.normals ++ b.normals
        else []
      uvs := if a.has_uvs && b.has_uvs then a.uvs ++ b.uvs else []
      colors :=
        if a.has_colors && b.has_colors then a.colors ++ b.colors else []
      indices :=
        a.indices ++ b.indices.map (fun i => i + a.vertex_count)
      material_index := a.material_index.or b.material_index }

mutual

/-- `tileset_writer.rs::octree_to_tile_node`: the single-level conversion
of an octree into tile nodes (leaf error 0, internal error
`diagonal · 0.5^level`, content exactly for non-empty meshes). -/
def octree_to_tile_node (E : Ext) :
    OctreeNode → List Char → ℕ → BoundingBox → ℚ → MaterialLibrary →
      TextureConfig → TileNode
  | .mk _nb nmesh ncs, address, level, bounds, _parent_error, mats, tc =>
    let is_leaf := ncs.all Option.isNone
    let geometric_error : ℚ :=
      if is_leaf then 0
      else BoundingBox.diagonal E.sqrtQ bounds * (1/2) ^ level
    let content :=
      if !nmesh.is_empty then
        some (TileContent.mk (write_tile_glb E nmesh mats tc)
          (address_to_uri address))
      else none
    let children :=
      octreeTileChildren E ncs 0 address (level + 1) geometric_error mats tc
    TileNode.mk address level bounds geometric_error content children

/-- The `enumerate`/`filter_map` walk over a node's children inside
`octree_to_tile_node`: octant `i` recurses at the child's own bounds with
the composed address `address_i`. -/
def octreeTileChildren (E : Ext) :
    List (Option OctreeNode) → ℕ → List Char → ℕ → ℚ → MaterialLibrary →
      TextureConfig → List TileNode
  | [], _, _, _, _, _, _ => []
  | none :: rest, i, address, lvl, ge, mats, tc =>
    octreeTileChildren E rest (i + 1) address lvl ge mats tc
  | some c :: rest, i, address, lvl, ge, mats, tc =>
    octree_to_tile_node E c (address ++ '_' :: (Nat.repr i).toList) lvl
        c.bounds ge mats tc
      :: octreeTileChildren E rest (i + 1) address lvl ge mats tc

end

mutual

/-- `tileset_writer.rs::octree_to_tile_node_recursive`: the counter-based
conversion used below the finest LOD level; returns the node and the
updated counter.  Internal octree nodes get `diagonal · 0.1` error and no
content. -/
def octree_to_tile_node_recursive (E : Ext) :
    OctreeNode → ℕ → MaterialLibrary → TextureConfig → TileNode × ℕ
  | .mk nb nmesh ncs, counter0, mats, tc =>
    let address := (Nat.repr counter0).toList
    let counter := counter0 + 1
    if ncs.all Option.isNone then
      let content :=
        if !nmesh.is_empty then
          some (TileContent.mk (write_tile_glb E nmesh mats tc)
            (address_to_uri address))
        else none
      (TileNode.mk address 0 nb 0 content [], counter)
    else
      let geometric_error := BoundingBox.diagonal E.sqrtQ nb * (1/10)
      let res := octreeRecChildren E ncs counter mats tc
      (TileNode.mk address 0 nb geometric_error none res.1, res.2)

/-- The counter-threading loop over children shared by
`octree_to_tile_node_recursive` and the internal-node case of
`octree_children_to_tiles` (both iterate the eight options in order,
skipping `None`). -/
def octreeRecChildren (E : Ext) :
    List (Option OctreeNode) → ℕ → MaterialLibrary → TextureConfig →
      List TileNode × ℕ
  | [], counter, _, _ => ([], counter)
  | none :: rest, counter, mats, tc =>
    octreeRecChildren E rest counter mats tc
  | some c :: rest, counter, mats, tc =>
    let r := octree_to_tile_node_recursive E c counter mats tc
    let rr := octreeRecChildren E rest r.2 mats tc
    (r.1 :: rr.1, rr.2)

end

/-- `tileset_writer.rs::octree_children_to_tiles`: convert an octree into
the leaf tier of a multi-level hierarchy. -/
def octree_children_to_tiles (E : Ext) (node : OctreeNode)
    (_bounds : BoundingBox) (child_counter : ℕ) (mats : MaterialLibrary)
    (tc : TextureConfig) : List TileNode :=
  if node.is_leaf then
    if node.mesh.is_empty then []
    else
      let address := (Nat.repr child_counter).toList
      let glb_data := write_tile_glb E node.mesh mats tc
      let uri := address_to_uri address
      [TileNode.mk address 0 node.bounds 0
        (some (TileContent.mk glb_data uri)) []]
  else
    (octreeRecChildren E node.children child_counter mats tc).1

/-- `tileset_writer.rs::build_lod_children`: the finest level octree-splits
into leaf tiles; an intermediate level becomes a single content tile whose
children come from the next finer level. -/
def build_lod_children (E : Ext) (level_meshes : List (ℕ × IndexedMesh × ℚ))
    (bounds : BoundingBox) (config : TilingConfig) (mats : MaterialLibrary)
    (tc : TextureConfig) :
    ℕ → List Char → List TileNode
  | 0, _parent_addr =>
    let entry := level_meshes.getD 0 (0, IndexedMesh.empty, 0)
    let tree :=
      build_octree E.sqrtQ entry.2.1 bounds config.max_depth
        config.max_triangles_per_tile
    octree_children_to_tiles E tree bounds 0 mats tc
  | prev_idx + 1, parent_addr =>
    let entry := level_meshes.getD (prev_idx + 1) (0, IndexedMesh.empty, 0)
    let lod_level := entry.1
    let mesh := entry.2.1
    let geometric_error := entry.2.2
    let address :=
      if parent_addr.isEmpty then (Nat.repr lod_level).toList
      else parent_addr ++ '_' :: (Nat.repr lod_level).toList
    let glb_data := write_tile_glb E mesh mats tc
    let uri := address_to_uri address
    let children :=
      build_lod_children E level_meshes bounds config mats tc prev_idx
        address
    [TileNode.mk address lod_level bounds geometric_error
      (some (TileContent.mk glb_data uri)) children]

/-- `tileset_writer.rs::build_lod_hierarchy`: root holds the coarsest LOD
with its chain error; finer levels become descendants. -/
def build_lod_hierarchy (E : Ext) (level_meshes : List (ℕ × IndexedMesh × ℚ))
    (bounds : BoundingBox) (config : TilingConfig) (mats : MaterialLibrary)
    (tc : TextureConfig) : TileNode :=
  let num_levels := level_meshes.length
  let coarsest_idx := num_levels - 1
  let entry := level_meshes.getD coarsest_idx (0, IndexedMesh.empty, 0)
  let root_glb := write_tile_glb E entry.2.1 mats tc
  let root_uri := address_to_uri ("root".toList)
  let children :=
    if 2 ≤ num_levels then
      build_lod_children E level_meshes bounds config mats tc
        (coarsest_idx - 1) []
    else []
  TileNode.mk ("root".toList) 0 bounds entry.2.2
    (some (TileContent.mk root_glb root_uri)) children

/-- The per-level merge pass at the top of `build_tileset`: merge every
chain's mesh at each LOD level, keep the per-level maximal chain error,
drop empty levels, and sort by level (finest first). -/
def levelMeshesOf (lod_chains : List LodChain) :
    List (ℕ × IndexedMesh × ℚ) :=
  let max_lod :=
    ((lod_chains.flatMap (·.levels)).map (·.level)).foldl max 0
  let lm :=
    (List.range (max_lod + 1)).foldl
      (fun acc lod =>
        let merged :=
          lod_chains.foldl
            (fun (st : IndexedMesh × ℚ) chain =>
              match chain.levels.find? (fun l => l.level = lod) with
              | some level =>
                (merge_meshes st.1 level.mesh,
                 if st.2 < level.geometric_error then level.geometric_error
                 else st.2)
              | none => st)
            (IndexedMesh.empty, 0)
        if !merged.1.is_empty then acc ++ [(lod, merged.1, merged.2)]
        else acc)
      []
  sortByStable (fun a b => a.1 ≤ b.1) lm

/-- The identity root transform of `build_tileset` (column-major 4×4). -/
def identity16 : List ℚ :=
  [1, 0, 0, 0, 0, 1, 0, 0, 0, 0, 1, 0, 0, 0, 0, 1]

/-- `tileset_writer.rs::build_tileset`: single non-trivial LOD level →
octree split via `octree_to_tile_node`; several levels → coarsest-rooted
LOD hierarchy. -/
def build_tileset (E : Ext) (lod_chains : List LodChain)
    (bounds : BoundingBox) (config : TilingConfig)
    (materials : MaterialLibrary) (texture_config : TextureConfig) :
    TilesetOutput :=
  let level_meshes := levelMeshesOf lod_chains
  if level_meshes.length ≤ 1 then
    let mesh :=
      match level_meshes with
      | [] => IndexedMesh.empty
      | e :: _ => e.2.1
    let tree :=
      build_octree E.sqrtQ mesh bounds config.max_depth
        config.max_triangles_per_tile
    let root :=
      octree_to_tile_node E tree ("root".toList) 0 bounds 0 materials
        texture_config
    ⟨root, identity16⟩
  else
    ⟨build_lod_hierarchy E level_meshes bounds config materials
      texture_config, identity16⟩

/-! ## Manifest serialization (`tileset_writer.rs::build_tileset_json`) -/

/-- A JSON value (the fragment of `serde_json::Value` the manifest uses). -/
inductive Json where
  | str (s : List Char)
  | num (q : ℚ)
  | arr (elems : List Json)
  | obj (fields : List (List Char × Json))

/-- Object-field lookup. -/
def Json.lookup : Json → List Char → Option Json
  | .obj fields, k => List.lookup k fields
  | _, _ => none

/-- `tile["key"] = value` on a JSON object: insert or replace. -/
def Json.setKey : Json → List Char → Json → Json
  | .obj fields, k, v => .obj (assocInsert fields k v)
  | j, _, _ => j

/-- `tileset_writer.rs::bounding_volume_box`: the 12-float axis-aligned
`boundingVolume.box`. -/
def bounding_volume_box (bounds : BoundingBox) : List ℚ :=
  let c := bounds.center
  let he := bounds.half_extents
  [c.x, c.y, c.z, he.x, 0, 0, 0, he.y, 0, 0, 0, he.z]

mutual

/-- `tileset_writer.rs::tile_node_to_json`: bounding volume, error and
refine mode always; transform, content and children conditionally. -/
def tile_node_to_json : TileNode → Option (List ℚ) → Json
  | .mk _a _l nbounds ge ncontent nchildren, transform =>
    let bv := bounding_volume_box nbounds
    let tile : Json :=
      .obj
        [(("boundingVolume".toList),
          .obj [(("box".toList), .arr (bv.map .num))]),
         (("geometricError".toList), .num ge),
         (("refine".toList), .str ("REPLACE".toList))]
    let tile :=
      match transform with
      | some t => tile.setKey ("transform".toList) (.arr (t.map .num))
      | none => tile
    let tile :=
      match ncontent with
      | some content =>
        tile.setKey ("content".toList)
          (.obj [(("uri".toList), .str content.uri)])
      | none => tile
    if nchildren.isEmpty then tile
    else
      tile.setKey ("children".toList) (.arr (tileChildrenJson nchildren))

/-- The `children.iter().map(|c| tile_node_to_json(c, None))` walk of
`tile_node_to_json`. -/
def tileChildrenJson : List TileNode → List Json
  | [] => []
  | c :: rest => tile_node_to_json c none :: tileChildrenJson rest

end

/-- `tileset_writer.rs::build_tileset_json`: asset header, top-level
geometric error and the root tile carrying the caller's transform. -/
def build_tileset_json (root : TileNode) (transform : List ℚ) : Json :=
  let root_tile := tile_node_to_json root (some transform)
  .obj
    [(("asset".toList),
      .obj [(("version".toList), .str ("1.1".toList)),
            (("generator".toList), .str ("photo-tiler".toList))]),
     (("geometricError".toList), .num root.geometric_error),
     (("root".toList), root_tile)]

/-! ## Claim-support definitions

Spec-side reference definitions, tree enumeration helpers and the concrete
inputs used by witnesses and counterexamples. -/

/-- The spec's description of the address prefixes: the `i`-th directory
segment is the first `i+1` underscore-separated parts rejoined with
underscores (`a1`, `a1_a2`, …). -/
def specPrefixes (parts : List (List Char)) : List (List Char) :=
  (List.range parts.length).map fun i => joinChar '_' (parts.take (i + 1))

/-- The address-to-URI mapping as the spec words it: `"root"` is special,
any other address becomes `tiles/` followed by its prefixes joined with
`/` and ending in `/tile.glb`. -/
def specAddressToUri (address : List Char) : List Char :=
  if address = ("root".toList) then ("tiles/root.glb".toList)
  else
    ("tiles/".toList) ++
      joinChar '/' (specPrefixes (splitOnChar '_' address)) ++
      ("/tile.glb".toList)

/-- Squared Euclidean length of a 3-vector. -/
def V3.len2 (v : V3) : ℚ := v.x * v.x + v.y * v.y + v.z * v.z

/-- The spec's intersection parameter: `t = dₐ / (dₐ − d_b)` with
`d = pos[axis] − plane`, and `t = 1/2` when the denominator is below
`10⁻¹⁵` in magnitude. -/
def specEdgeT (a b : ClipVertex) (plane : ClipPlane) : ℚ :=
  let da := a.pos.get plane.axis - plane.value
  let db := b.pos.get plane.axis - plane.value
  if |da - db| < 1/10^15 then 1/2 else da / (da - db)

/-- Componentwise linear interpolation of 3-vectors at parameter `t`. -/
def specLerpV3 (t : ℚ) (u v : V3) : V3 :=
  ⟨lerpQ t u.x v.x, lerpQ t u.y v.y, lerpQ t u.z v.z⟩

/-- Componentwise linear interpolation of 2-vectors at parameter `t`. -/
def specLerpV2 (t : ℚ) (u v : V2) : V2 :=
  ⟨lerpQ t u.u v.u, lerpQ t u.v v.v⟩

/-- Componentwise linear interpolation of 4-vectors at parameter `t`. -/
def specLerpV4 (t : ℚ) (u v : V4) : V4 :=
  ⟨lerpQ t u.r v.r, lerpQ t u.g v.g, lerpQ t u.b v.b, lerpQ t u.a v.a⟩

/-- The position of vertex `i` of a mesh, as read by the clipper. -/
def meshPos (m : IndexedMesh) (i : ℕ) : V3 :=
  ⟨m.positions.getD (i * 3) 0, m.positions.getD (i * 3 + 1) 0,
   m.positions.getD (i * 3 + 2) 0⟩

/-- Squared norm of the cross product of the two edge vectors of triangle
`(i0, i1, i2)` of a mesh — four times the squared triangle area.  This is
the rational core of the area measurement; the area itself takes a real
square root. -/
def crossSq (m : IndexedMesh) (i0 i1 i2 : ℕ) : ℚ :=
  let a := meshPos m i0
  let b := meshPos m i1
  let c := meshPos m i2
  let ux := b.x - a.x
  let uy := b.y - a.y
  let uz := b.z - a.z
  let vx := c.x - a.x
  let vy := c.y - a.y
  let vz := c.z - a.z
  let cx := uy * vz - uz * vy
  let cy := uz * vx - ux * vz
  let cz := ux * vy - uy * vx
  cx * cx + cy * cy + cz * cz

/-- Spec-side area of one triangle of a mesh (`½‖u × v‖`); real-valued
because of the square root, used only in statements about areas. -/
noncomputable def triArea (m : IndexedMesh) (i0 i1 i2 : ℕ) : ℝ :=
  Real.sqrt ((crossSq m i0 i1 i2 : ℚ) : ℝ) / 2

/-- Spec-side total surface area of a mesh: the sum of its triangles'
areas. -/
noncomputable def meshArea (m : IndexedMesh) : ℝ :=
  ((chunk3 m.indices).map fun t => triArea m t.1 t.2.1 t.2.2).sum

/-- Spec-side summed fragment area across a list of sub-meshes (the eight
clipper outputs). -/
noncomputable def fragmentAreaSum (ms : List IndexedMesh) : ℝ :=
  (ms.map meshArea).sum

/-- The segments recorded by `pathSegStep` once the accumulator is
non-initial: each further part appends `'_' :: part` to the running
accumulator. -/
def segsAux (acc : List Char) : List (List Char) → List (List Char)
  | [] => []
  | p :: rest => (acc ++ '_' :: p) :: segsAux (acc ++ '_' :: p) rest

mutual

/-- All nodes of a tile tree, the node itself first. -/
def TileNode.allNodes : TileNode → List TileNode
  | .mk a l b g c cs => .mk a l b g c cs :: TileNode.allNodesList cs

/-- All nodes of a forest of tile trees. -/
def TileNode.allNodesList : List TileNode → List TileNode
  | [] => []
  | c :: rest => TileNode.allNodes c ++ TileNode.allNodesList rest

end

mutual

/-- The octree invariant maintained by `build_octree_recursive`: a node
is either a leaf or holds the empty mesh, recursively. -/
def octGoodB : OctreeNode → Bool
  | .mk _ m cs => (cs.all Option.isNone || m.is_empty) && octGoodListB cs

/-- `octGoodB` over an option-list of children. -/
def octGoodListB : List (Option OctreeNode) → Bool
  | [] => true
  | none :: rest => octGoodListB rest
  | some c :: rest => octGoodB c && octGoodListB rest

end

mutual

/-- Decidable check of the claimed geometric-error discipline below a
node at depth `d`: leaves carry error 0 and internal nodes carry
`diagonal(bounds) · 0.5^d`. -/
def errSpecB (sqrtQ : ℚ → ℚ) : TileNode → ℕ → Bool
  | .mk _ _ b g _ cs, d =>
    (if cs.isEmpty then decide (g = 0)
     else decide (g = BoundingBox.diagonal sqrtQ b * (1/2) ^ d)) &&
      errSpecListB sqrtQ cs (d + 1)

/-- `errSpecB` over a list of siblings at a common depth. -/
def errSpecListB (sqrtQ : ℚ → ℚ) : List TileNode → ℕ → Bool
  | [], _ => true
  | c :: rest, d => errSpecB sqrtQ c d && errSpecListB sqrtQ rest d

end

/-- A concrete external-collaborator bundle for witnesses: `sqrt` is the
constant 0 and the abstracted encoders return trivial values. -/
def extZero : Ext :=
  { sqrtQ := fun _ => 0
    loadFromMemory := fun _ => none
    compositeAtlas := fun img _ _ _ => img
    resizeImage := fun img _ _ => img
    compressTexture := fun _ _ => ⟨[], [], 0, 0⟩
    meshoptSimplify := fun idx _ _ _ _ => (idx, 0)
    optimizeVertexCache := fun idx _ => idx
    writeGlb := fun _ _ _ => [] }

/-- A bundle whose `sqrt` returns `17/10` everywhere — a faithful rational
approximation of `√3` (the space diagonal of the unit box), adequate for
counterexamples that only need the diagonal to differ from a chain
error. -/
def extSqrt3 : Ext :=
  { extZero with sqrtQ := fun _ => 17/10 }

/-- The unit cube. -/
def unitBox : BoundingBox := ⟨⟨0, 0, 0⟩, ⟨1, 1, 1⟩⟩

/-- A single triangle lying strictly inside octant 0 of the unit box,
with 1 µm-distinct vertices. -/
def triMesh : IndexedMesh :=
  ⟨[1/10, 1/10, 1/10, 3/10, 1/10, 1/10, 1/10, 3/10, 1/10],
   [], [], [], [0, 1, 2], none⟩

/-- A one-level LOD chain around `triMesh`. -/
def triChain : LodChain := ⟨[⟨0, triMesh, 0⟩], unitBox⟩

/-- Texture processing disabled. -/
def texOff : TextureConfig := ⟨0, 0, 2048, false⟩

/-- A second small triangle (inside octant 7 of the unit box), used as a
coarser LOD level. -/
def triMeshB : IndexedMesh :=
  ⟨[6/10, 6/10, 6/10, 8/10, 6/10, 6/10, 6/10, 8/10, 6/10],
   [], [], [], [0, 1, 2], none⟩

/-- A two-level LOD chain: `triMesh` at LOD 0 (error 0) and `triMeshB` at
LOD 1 (error 1/2). -/
def twoLevelChain : LodChain :=
  ⟨[⟨0, triMesh, 0⟩, ⟨1, triMeshB, 1/2⟩], unitBox⟩

/-- A micro-triangle (edge length `2⁻²³ ≈ 1.2·10⁻⁷`, an exact `f32`
value) inside octant 0: all three vertices quantize to the same 1 µm
position key. -/
def microTriMesh : IndexedMesh :=
  ⟨[0, 0, 0, 1/2^23, 0, 0, 0, 1/2^23, 0], [], [], [], [0, 1, 2], none⟩

/-- A second micro-triangle (edge `2⁻²²`), still below the 1 µm grid,
placed in octant 7. -/
def microTriMesh7 : IndexedMesh :=
  ⟨[3/4, 3/4, 3/4, 3/4 + 1/2^22, 3/4, 3/4, 3/4, 3/4 + 1/2^22, 3/4],
   [], [], [], [0, 1, 2], none⟩

/-- Spec-side reading of `compact_mesh`'s remap pass (claim C8): the
referenced old vertex indices in first-seen, left-to-right order. -/
def specFirstSeen (indices : List ℕ) : List ℕ :=
  indices.foldl (fun acc i => if i ∈ acc then acc else acc ++ [i]) []

/-- Spec-side vertex gather (claim C8): the attribute values of the given
old vertex indices, concatenated in order, at the given stride. -/
def specGather (buf : List ℚ) (stride : ℕ) : List ℕ → List ℚ
  | [] => []
  | oi :: rest =>
    ((List.range stride).map fun k => buf.getD (oi * stride + k) 0) ++
      specGather buf stride rest

/-- Spec-side statement of claim C8, following the specification's words:
scan indices left-to-right, assign each first-seen old index the next new
index, keep exactly the referenced vertices in first-seen order, carry
every present attribute over, and remap the indices accordingly. -/
def specCompact (indices : List ℕ) (source : IndexedMesh) : IndexedMesh :=
  if indices.isEmpty then
    { IndexedMesh.empty with material_index := source.material_index }
  else
    let seen := specFirstSeen indices
    { positions := specGather source.positions 3 seen
      normals :=
        if source.has_normals then specGather source.normals 3 seen else []
      uvs := if source.has_uvs then specGather source.uvs 2 seen else []
      colors :=
        if source.has_colors then specGather source.colors 4 seen else []
      indices := indices.map fun i => seen.indexOf i
      material_index := source.material_index }

/-- The remap table of `compact_mesh` determined by a first-seen list:
entry `j` is the position of `j` in the list, when present. -/
def remapOf (vc : ℕ) (acc : List ℕ) : List (Option ℕ) :=
  (List.range vc).map fun j =>
    if j ∈ acc then some (acc.indexOf j) else none

/-- A run of consecutive strided writes `b[off + k] := src[ooff + k]`,
the normal form of `compactBufStep`'s per-buffer copy. -/
def foldWrites (src : List ℚ) (off ooff : ℕ) (ks : List ℕ) (b : List ℚ) :
    List ℚ :=
  ks.foldl (fun b k => b.set (off + k) (src.getD (ooff + k) 0)) b

/-- Single-buffer view of `compactBufStep`: copy stride-`s` vertex `p.1`
to slot `ni` when the remap entry is `some ni`. -/
def gatherStep (src : List ℚ) (s : ℕ) (buf : List ℚ) (p : ℕ × Option ℕ) :
    List ℚ :=
  match p.2 with
  | none => buf
  | some ni => foldWrites src (ni * s) (p.1 * s) (List.range s) buf

/-- `gatherStep` guarded by an attribute-presence flag (the
`if source.has_…` branches of `compactBufStep`). -/
def gStep (flag : Bool) (src : List ℚ) (s : ℕ) (buf : List ℚ)
    (p : ℕ × Option ℕ) : List ℚ :=
  if flag then gatherStep src s buf p else buf

/-! ## Theorems -/

section Theorems

attribute [local semireducible] Rat.add Rat.mul Rat.inv Rat.sub
  Rat.ofScientific

/-! ### Splitting and joining addresses (claim C3 support) -/

theorem splitOnChar_ne_nil (sep : Char) (s : List Char) :
    splitOnChar sep s ≠ [] := by
  cases s with
  | nil => simp [splitOnChar]
  | cons c rest =>
    simp only [splitOnChar]
    split
    · simp
    · cases splitOnChar sep rest <;> simp

theorem joinChar_cons_cons (sep : Char) (c : Char) (h : List Char)
    (t : List (List Char)) :
    joinChar sep ((c :: h) :: t) = c :: joinChar sep (h :: t) := by
  cases t <;> simp [joinChar]

theorem joinChar_splitOnChar (sep : Char) (s : List Char) :
    joinChar sep (splitOnChar sep s) = s := by
  induction s with
  | nil => rfl
  | cons c rest ih =>
    simp only [splitOnChar]
    by_cases hc : c = sep
    · subst hc
      simp only [if_pos rfl]
      rcases h : splitOnChar c rest with _ | ⟨p, t⟩
      · exact absurd h (splitOnChar_ne_nil c rest)
      · rw [h] at ih
        simpa [joinChar] using ih
    · rw [if_neg hc]
      rcases h : splitOnChar sep rest with _ | ⟨p, t⟩
      · exact absurd h (splitOnChar_ne_nil sep rest)
      · rw [h] at ih
        rw [joinChar_cons_cons]
        exact congrArg (c :: ·) ih

theorem not_mem_splitOnChar (sep : Char) (s : List Char) :
    ∀ p ∈ splitOnChar sep s, sep ∉ p := by
  induction s with
  | nil => simp [splitOnChar]
  | cons c rest ih =>
    intro p hp
    simp only [splitOnChar] at hp
    by_cases hc : c = sep
    · rw [if_pos hc] at hp
      rcases List.mem_cons.1 hp with h | h
      · subst h; simp
      · exact ih p h
    · rw [if_neg hc] at hp
      rcases h : splitOnChar sep rest with _ | ⟨q, t⟩
      · exact absurd h (splitOnChar_ne_nil sep rest)
      · rw [h] at hp
        rcases List.mem_cons.1 hp with h2 | h2
        · subst h2
          intro hmem
          rcases List.mem_cons.1 hmem with h3 | h3
          · exact hc h3.symm
          · exact ih q (h ▸ List.mem_cons_self q t) h3
        · exact ih p (h ▸ List.mem_cons_of_mem q h2)

theorem mem_of_mem_splitOnChar (sep : Char) (s : List Char) :
    ∀ p ∈ splitOnChar sep s, ∀ ch ∈ p, ch ∈ s := by
  induction s with
  | nil => simp [splitOnChar]
  | cons c rest ih =>
    intro p hp ch hch
    simp only [splitOnChar] at hp
    by_cases hc : c = sep
    · rw [if_pos hc] at hp
      rcases List.mem_cons.1 hp with h | h
      · subst h; simp at hch
      · exact List.mem_cons_of_mem c (ih p h ch hch)
    · rw [if_neg hc] at hp
      rcases h : splitOnChar sep rest with _ | ⟨q, t⟩
      · exact absurd h (splitOnChar_ne_nil sep rest)
      · rw [h] at hp
        rcases List.mem_cons.1 hp with h2 | h2
        · subst h2
          rcases List.mem_cons.1 hch with h3 | h3
          · exact h3 ▸ List.mem_cons_self c rest
          · exact List.mem_cons_of_mem c
              (ih q (h ▸ List.mem_cons_self q t) ch h3)
        · exact List.mem_cons_of_mem c
            (ih p (h ▸ List.mem_cons_of_mem q h2) ch hch)

theorem mem_joinChar (sep : Char) (L : List (List Char)) :
    ∀ ch ∈ joinChar sep L, ch = sep ∨ ∃ p ∈ L, ch ∈ p := by
  induction L with
  | nil => simp [joinChar]
  | cons s rest ih =>
    intro ch hch
    cases rest with
    | nil =>
      right
      exact ⟨s, List.mem_cons_self s [], by simpa [joinChar] using hch⟩
    | cons q t =>
      simp only [joinChar] at hch
      rcases List.mem_append.1 hch with h | h
      · exact Or.inr ⟨s, List.mem_cons_self s (q :: t), h⟩
      · rcases List.mem_cons.1 h with h2 | h2
        · exact Or.inl h2
        · rcases ih ch h2 with h3 | ⟨p, hp, hchp⟩
          · exact Or.inl h3
          · exact Or.inr ⟨p, List.mem_cons_of_mem s hp, hchp⟩

theorem splitOnChar_of_not_mem (sep : Char) (s : List Char)
    (hs : sep ∉ s) : splitOnChar sep s = [s] := by
  induction s with
  | nil => rfl
  | cons c rest ih =>
    have hc : c ≠ sep := fun h => hs (h ▸ List.mem_cons_self c rest)
    have hrest : sep ∉ rest := fun h => hs (List.mem_cons_of_mem c h)
    simp only [splitOnChar, if_neg hc, ih hrest]

theorem splitOnChar_append_cons (sep : Char) (s t : List Char)
    (hs : sep ∉ s) :
    splitOnChar sep (s ++ sep :: t) = s :: splitOnChar sep t := by
  induction s with
  | nil => simp [splitOnChar]
  | cons c s' ih =>
    have hc : c ≠ sep := fun h => hs (h ▸ List.mem_cons_self c s')
    have hs' : sep ∉ s' := fun h => hs (List.mem_cons_of_mem c h)
    rw [List.cons_append]
    simp only [splitOnChar, if_neg hc]
    rw [ih hs']

theorem splitOnChar_joinChar (sep : Char) (L : List (List Char))
    (hL : L ≠ []) (hall : ∀ p ∈ L, sep ∉ p) :
    splitOnChar sep (joinChar sep L) = L := by
  induction L with
  | nil => exact absurd rfl hL
  | cons s rest ih =>
    cases rest with
    | nil =>
      simpa [joinChar] using
        splitOnChar_of_not_mem sep s (hall s (List.mem_cons_self s []))
    | cons q t =>
      have hs : sep ∉ s := hall s (List.mem_cons_self s (q :: t))
      have hrest : ∀ p ∈ q :: t, sep ∉ p := fun p hp =>
        hall p (List.mem_cons_of_mem s hp)
      simp only [joinChar]
      rw [splitOnChar_append_cons sep s _ hs, ih (by simp) hrest]

theorem foldl_pathSegStep (rest : List (List Char)) :
    ∀ acc segs, segs ≠ [] →
      (List.foldl pathSegStep (acc, segs) rest).2 =
        segs ++ segsAux acc rest := by
  induction rest with
  | nil => intro acc segs _; simp [segsAux]
  | cons p rest' ih =>
    intro acc segs hsegs
    have hstep : pathSegStep (acc, segs) p =
        (acc ++ '_' :: p, segs ++ [acc ++ '_' :: p]) := by
      simp [pathSegStep, List.isEmpty_iff, hsegs]
    rw [List.foldl_cons, hstep, ih _ _ (by simp), segsAux]
    simp

theorem pathSegments_cons (p : List Char) (rest : List (List Char)) :
    pathSegments (p :: rest) = p :: segsAux p rest := by
  have hstep : pathSegStep ([], []) p = (p, [p]) := by
    simp [pathSegStep]
  rw [pathSegments, List.foldl_cons, hstep,
    foldl_pathSegStep rest p [p] (by simp)]
  simp

theorem joinChar_append_singleton (sep : Char) (pre : List (List Char))
    (hpre : pre ≠ []) (q : List Char) :
    joinChar sep (pre ++ [q]) = joinChar sep pre ++ sep :: q := by
  induction pre with
  | nil => exact absurd rfl hpre
  | cons x rest ih =>
    cases rest with
    | nil => simp [joinChar]
    | cons y t =>
      have ihy := ih (by simp)
      calc joinChar sep ((x :: y :: t) ++ [q])
          = x ++ sep :: joinChar sep ((y :: t) ++ [q]) := rfl
        _ = x ++ sep :: (joinChar sep (y :: t) ++ sep :: q) := by rw [ihy]
        _ = (x ++ sep :: joinChar sep (y :: t)) ++ sep :: q := by simp
        _ = joinChar sep (x :: y :: t) ++ sep :: q := by
            simp only [joinChar]

theorem segsAux_join (rest : List (List Char)) :
    ∀ pre, pre ≠ [] →
      segsAux (joinChar '_' pre) rest =
        (List.range rest.length).map
          (fun i => joinChar '_' (pre ++ rest.take (i + 1))) := by
  induction rest with
  | nil => intro pre _; simp [segsAux]
  | cons q rest' ih =>
    intro pre hpre
    have hjoin : joinChar '_' pre ++ '_' :: q = joinChar '_' (pre ++ [q]) :=
      (joinChar_append_singleton '_' pre hpre q).symm
    simp only [segsAux, hjoin, ih (pre ++ [q]) (by simp)]
    rw [List.length_cons, List.range_succ_eq_map]
    simp only [List.map_cons, List.map_map]
    refine congrArg₂ List.cons ?_ ?_
    · simp
    · refine List.map_congr_left fun i _ => ?_
      simp [List.take_cons, List.append_assoc]

theorem pathSegments_eq_specPrefixes (parts : List (List Char))
    (h : parts ≠ []) : pathSegments parts = specPrefixes parts := by
  rcases parts with _ | ⟨p, rest⟩
  · exact absurd rfl h
  · rw [pathSegments_cons]
    have hp : p = joinChar '_' [p] := by simp [joinChar]
    rw [specPrefixes, List.length_cons, List.range_succ_eq_map]
    simp only [List.map_cons, List.map_map]
    refine congrArg₂ List.cons ?_ ?_
    · simp [joinChar]
    · rw [show segsAux p rest = segsAux (joinChar '_' [p]) rest from by
        rw [← hp], segsAux_join rest [p] (by simp)]
      refine List.map_congr_left fun i _ => ?_
      simp [List.take_cons, List.append_assoc]

theorem getLastD_specPrefixes (parts : List (List Char))
    (h : parts ≠ []) :
    (specPrefixes parts).getLastD [] = joinChar '_' parts := by
  rcases parts with _ | ⟨p, rest⟩
  · exact absurd rfl h
  · rw [specPrefixes, List.length_cons, List.range_succ, List.map_append,
      List.map_cons, List.map_nil, List.getLastD_concat]
    rw [show rest.length + 1 = (p :: rest).length from rfl,
      List.take_length]

theorem no_slash_specPrefixes (addr : List Char) (hslash : '/' ∉ addr) :
    ∀ p ∈ specPrefixes (splitOnChar '_' addr), '/' ∉ p := by
  intro p hp hmem
  rw [specPrefixes] at hp
  rcases List.mem_map.1 hp with ⟨i, _, rfl⟩
  rcases mem_joinChar '_' _ _ hmem with h | ⟨q, hq, hchq⟩
  · exact absurd h (by decide)
  · exact hslash
      (mem_of_mem_splitOnChar '_' addr q
        (List.take_subset _ _ hq) '/' hchq)

theorem uri_segments_recover (addr : List Char)
    (hslash : '/' ∉ addr) :
    splitOnChar '/'
        (joinChar '/' (pathSegments (splitOnChar '_' addr))) =
      pathSegments (splitOnChar '_' addr) ∧
    (pathSegments (splitOnChar '_' addr)).getLastD [] = addr := by
  have hparts := splitOnChar_ne_nil '_' addr
  have hspec := pathSegments_eq_specPrefixes _ hparts
  have hne : pathSegments (splitOnChar '_' addr) ≠ [] := by
    rw [hspec]
    intro hc
    apply hparts
    have hlen := congrArg List.length hc
    simp only [specPrefixes, List.length_map, List.length_range,
      List.length_nil] at hlen
    exact List.length_eq_zero.1 hlen
  constructor
  · refine splitOnChar_joinChar '/' _ hne fun p hp => ?_
    exact no_slash_specPrefixes addr hslash p (hspec ▸ hp)
  · rw [hspec, getLastD_specPrefixes _ hparts, joinChar_splitOnChar]

/-- Claim C3: the address-to-URI mapping is deterministic and one-to-one;
`"root"` maps to `tiles/root.glb`, any other address maps to `tiles/`
followed by one directory segment per accumulated underscore prefix and
a final `/tile.glb` (with `"0"`, `"0_3"`, `"0_3_1"` as in the spec), and
distinct addresses (which, as tile addresses, contain no `/`) map to
distinct URIs. -/
theorem claim_C3 :
    (address_to_uri ("root".toList) = ("tiles/root.glb".toList)) ∧
    (∀ addr : List Char, address_to_uri addr = specAddressToUri addr) ∧
    (address_to_uri ("0".toList) = ("tiles/0/tile.glb".toList)) ∧
    (address_to_uri ("0_3".toList) = ("tiles/0/0_3/tile.glb".toList)) ∧
    (address_to_uri ("0_3_1".toList) =
      ("tiles/0/0_3/0_3_1/tile.glb".toList)) ∧
    (∀ a b : List Char, '/' ∉ a → '/' ∉ b →
      address_to_uri a = address_to_uri b → a = b) := by
  refine ⟨by decide, ?_, by decide, by decide, by decide, ?_⟩
  · intro addr
    by_cases h : addr = ("root".toList)
    · rw [address_to_uri, specAddressToUri, if_pos h, if_pos h]
    · simp only [address_to_uri, specAddressToUri, if_neg h]
      rw [pathSegments_eq_specPrefixes _ (splitOnChar_ne_nil '_' addr)]
  · intro a b ha hb heq
    by_cases hra : a = ("root".toList) <;>
      by_cases hrb : b = ("root".toList)
    · rw [hra, hrb]
    · exfalso
      simp only [address_to_uri, if_pos hra, if_neg hrb] at heq
      have hlen := congrArg List.length heq
      simp only [List.length_append] at hlen
      have h14 : ("tiles/root.glb".toList).length = 14 := by decide
      have h6 : ("tiles/".toList).length = 6 := by decide
      have h9 : ("/tile.glb".toList).length = 9 := by decide
      rw [h14, h6, h9] at hlen
      omega
    · exfalso
      simp only [address_to_uri, if_neg hra, if_pos hrb] at heq
      have hlen := congrArg List.length heq
      simp only [List.length_append] at hlen
      have h14 : ("tiles/root.glb".toList).length = 14 := by decide
      have h6 : ("tiles/".toList).length = 6 := by decide
      have h9 : ("/tile.glb".toList).length = 9 := by decide
      rw [h14, h6, h9] at hlen
      omega
    · simp only [address_to_uri, if_neg hra, if_neg hrb] at heq
      have hX := List.append_cancel_left
        (List.append_cancel_right heq)
      have ra := uri_segments_recover a ha
      have rb := uri_segments_recover b hb
      have : pathSegments (splitOnChar '_' a) =
          pathSegments (splitOnChar '_' b) := by
        rw [← ra.1, ← rb.1, hX]
      rw [← ra.2, ← rb.2, this]

/-- Witness for claim C3: the mapping agrees with the spec form on a
concrete address and is injective on the concrete pair `"0"`, `"0_3"`. -/
theorem claim_C3_witness :
    ('/' ∉ ("0".toList)) ∧ ('/' ∉ ("0_3".toList)) ∧
    (address_to_uri ("0".toList) = address_to_uri ("0_3".toList) →
      ("0".toList) = ("0_3".toList)) :=
  ⟨by decide, by decide,
    claim_C3.2.2.2.2.2 ("0".toList) ("0_3".toList) (by decide) (by decide)⟩

/-! ### Claim C10: material handles survive every mesh-to-mesh stage -/

/-- Claim C10: the eight clipper outputs, `compact_mesh` (and hence
`simplify_mesh` on non-empty input) and the atlas UV remap all carry the
input mesh's `material_index` unchanged. -/
theorem claim_C10 :
    (∀ (sqrtQ : ℚ → ℚ) (mesh : IndexedMesh) (bounds : BoundingBox),
      ∀ sub ∈ split_mesh_clipping sqrtQ mesh bounds,
        sub.material_index = mesh.material_index) ∧
    (∀ (indices : List ℕ) (source : IndexedMesh),
      (compact_mesh indices source).material_index =
        source.material_index) ∧
    (∀ (E : Ext) (mesh : IndexedMesh) (ratioQ : ℚ) (lockBorder : Bool),
      mesh.is_empty = false →
        (simplify_mesh E mesh ratioQ lockBorder).mesh.material_index =
          mesh.material_index) ∧
    (∀ (mesh : IndexedMesh) (islands : List UvIsland)
        (placements : List Placement) (atlas_size : ℕ),
      (remap_uvs_with_dedup mesh islands placements
          atlas_size).material_index = mesh.material_index) := by
  have hcompact : ∀ (indices : List ℕ) (source : IndexedMesh),
      (compact_mesh indices source).material_index =
        source.material_index := by
    intro indices source
    rw [compact_mesh]
    split <;> rfl
  refine ⟨?_, hcompact, ?_, ?_⟩
  · intro sqrtQ mesh bounds sub hsub
    rw [split_mesh_clipping] at hsub
    simp only [List.mem_map] at hsub
    obtain ⟨b, _, rfl⟩ := hsub
    rfl
  · intro E mesh ratioQ lockBorder hne
    rw [simplify_mesh, if_neg (by simp [hne])]
    exact hcompact _ _
  · intro mesh islands placements atlas_size
    rfl

/-- Witness for claim C10: the simplifier part at a concrete non-empty
mesh. -/
theorem claim_C10_witness :
    triMesh.is_empty = false ∧
    (simplify_mesh extZero triMesh (1/2) true).mesh.material_index =
      triMesh.material_index :=
  ⟨by decide, claim_C10.2.2.1 extZero triMesh (1/2) true (by decide)⟩

/-! ### Claim C5: edge intersection and attribute interpolation -/

/-- Counterexample for claim C5 as stated: with both endpoint normals
equal to `(10⁻¹³, 0, 0)` (and an exact square root on the resulting
squared length `10⁻²⁶`), the interpolated normal has nonzero length
`10⁻¹³ ≤ 10⁻¹²`, so the code skips renormalization and the resulting
normal is not unit length even though its length is nonzero. -/
theorem claim_C5_counterexample :
    let sq : ℚ → ℚ := fun q => if q = 1/10^26 then 1/10^13 else 0
    let a : ClipVertex :=
      ⟨⟨0, 0, 0⟩, ⟨1/10^13, 0, 0⟩, ⟨0, 0⟩, ⟨0, 0, 0, 0⟩⟩
    let b : ClipVertex :=
      ⟨⟨1, 0, 0⟩, ⟨1/10^13, 0, 0⟩, ⟨0, 0⟩, ⟨0, 0, 0, 0⟩⟩
    let r := intersect_edge sq a b ⟨0, 1/2, true⟩
    (r.normal.x * r.normal.x + r.normal.y * r.normal.y +
        r.normal.z * r.normal.z ≠ 0) ∧
    (r.normal.x * r.normal.x + r.normal.y * r.normal.y +
        r.normal.z * r.normal.z ≠ 1) := by
  decide

/-- Claim C5 (amended): `intersect_edge` computes
`t = dₐ / (dₐ − d_b)` with `d = pos[axis] − plane` (and `t = 1/2` when
`|dₐ − d_b| < 10⁻¹⁵`), interpolates position, normal, UV and color at
that same `t`, and renormalizes the interpolated normal exactly when the
computed length exceeds `10⁻¹²` — in which case (for an exact square
root) the result is unit length. -/
theorem claim_C5 (sqrtQ : ℚ → ℚ) (a b : ClipVertex) (plane : ClipPlane) :
    ((intersect_edge sqrtQ a b plane).pos =
      specLerpV3 (specEdgeT a b plane) a.pos b.pos) ∧
    ((intersect_edge sqrtQ a b plane).uv =
      specLerpV2 (specEdgeT a b plane) a.uv b.uv) ∧
    ((intersect_edge sqrtQ a b plane).color =
      specLerpV4 (specEdgeT a b plane) a.color b.color) ∧
    ((intersect_edge sqrtQ a b plane).normal =
      (if 1/10^12 <
          sqrtQ (specLerpV3 (specEdgeT a b plane) a.normal b.normal).len2
        then
          ⟨(specLerpV3 (specEdgeT a b plane) a.normal b.normal).x /
              sqrtQ (specLerpV3 (specEdgeT a b plane) a.normal
                b.normal).len2,
            (specLerpV3 (specEdgeT a b plane) a.normal b.normal).y /
              sqrtQ (specLerpV3 (specEdgeT a b plane) a.normal
                b.normal).len2,
            (specLerpV3 (specEdgeT a b plane) a.normal b.normal).z /
              sqrtQ (specLerpV3 (specEdgeT a b plane) a.normal
                b.normal).len2⟩
        else specLerpV3 (specEdgeT a b plane) a.normal b.normal)) ∧
    (1/10^12 <
        sqrtQ (specLerpV3 (specEdgeT a b plane) a.normal b.normal).len2 →
      sqrtQ (specLerpV3 (specEdgeT a b plane) a.normal b.normal).len2 *
          sqrtQ (specLerpV3 (specEdgeT a b plane) a.normal
            b.normal).len2 =
        (specLerpV3 (specEdgeT a b plane) a.normal b.normal).len2 →
      (intersect_edge sqrtQ a b plane).normal.len2 = 1) := by
  set nn := specLerpV3 (specEdgeT a b plane) a.normal b.normal with hnn
  set len := sqrtQ nn.len2 with hlendef
  refine ⟨rfl, rfl, rfl, rfl, ?_⟩
  intro hgt hsq
  have hlen : len ≠ 0 := by
    intro h0
    rw [h0] at hgt
    norm_num at hgt
  have hr : (intersect_edge sqrtQ a b plane).normal =
      ⟨nn.x / len, nn.y / len, nn.z / len⟩ := by
    show (if 1/10^12 < len then
        (⟨nn.x / len, nn.y / len, nn.z / len⟩ : V3) else nn) = _
    rw [if_pos hgt]
  rw [hr]
  show nn.x / len * (nn.x / len) + nn.y / len * (nn.y / len) +
      nn.z / len * (nn.z / len) = 1
  have key : nn.x / len * (nn.x / len) + nn.y / len * (nn.y / len) +
      nn.z / len * (nn.z / len) = nn.len2 / (len * len) := by
    rw [V3.len2]
    field_simp
  have hne : nn.len2 ≠ 0 := fun h0 =>
    hlen (mul_self_eq_zero.mp (by rw [hsq, h0]))
  rw [key, hsq, div_self hne]

/-- Witness for claim C5: a concrete edge with normals `(3,4,0)` (squared
length 25, exact square root 5) crossing the plane `x = 1/2`; the
renormalized output normal is `(3/5, 4/5, 0)`, of unit length. -/
theorem claim_C5_witness :
    let sq : ℚ → ℚ := fun q => if q = 25 then (5 : ℚ) else 0
    let a : ClipVertex := ⟨⟨0, 0, 0⟩, ⟨3, 4, 0⟩, ⟨0, 0⟩, ⟨0, 0, 0, 0⟩⟩
    let b : ClipVertex := ⟨⟨1, 0, 0⟩, ⟨3, 4, 0⟩, ⟨0, 0⟩, ⟨0, 0, 0, 0⟩⟩
    let r := intersect_edge sq a b ⟨0, 1/2, true⟩
    r.normal.x * r.normal.x + r.normal.y * r.normal.y +
        r.normal.z * r.normal.z = 1 := by
  intro sq a b r
  have h := (claim_C5 sq a b ⟨0, 1/2, true⟩).2.2.2.2
  exact h (by decide) (by decide)

/-! ### Claims C1 and C2: octree-derived tile trees -/

theorem octGoodListB_map_build (sqrtQ : ℚ → ℚ) (md mt fuel : ℕ)
    (ih : ∀ (mesh : IndexedMesh) (bounds : BoundingBox) (depth : ℕ),
      octGoodB (build_octree_go sqrtQ md mt fuel mesh bounds depth) = true)
    (bounds : BoundingBox) (depth : ℕ) (xs : List (ℕ × IndexedMesh)) :
    octGoodListB (xs.map fun p =>
      if p.2.is_empty then none
      else some (build_octree_go sqrtQ md mt fuel p.2
        (child_bounds bounds p.1) (depth + 1))) = true := by
  induction xs with
  | nil => rfl
  | cons x rest ihx =>
    simp only [List.map_cons]
    by_cases hx : x.2.is_empty
    · simp only [if_pos hx]
      rw [octGoodListB]
      exact ihx
    · simp only [if_neg hx]
      rw [octGoodListB, ih _ _ _, ihx]
      rfl

theorem octGoodB_build_octree_go (sqrtQ : ℚ → ℚ) (md mt : ℕ) :
    ∀ (fuel : ℕ) (mesh : IndexedMesh) (bounds : BoundingBox) (depth : ℕ),
      octGoodB (build_octree_go sqrtQ md mt fuel mesh bounds depth) =
        true := by
  intro fuel
  induction fuel with
  | zero => intro mesh bounds depth; rfl
  | succ fuel ih =>
    intro mesh bounds depth
    rw [build_octree_go]
    split
    · rfl
    · rw [octGoodB]
      simp only [IndexedMesh.is_empty, IndexedMesh.empty, List.isEmpty_nil,
        Bool.or_true, Bool.true_and]
      exact octGoodListB_map_build sqrtQ md mt fuel ih bounds depth _

theorem octGoodB_build_octree (sqrtQ : ℚ → ℚ) (mesh : IndexedMesh)
    (bounds : BoundingBox) (md mt : ℕ) :
    octGoodB (build_octree sqrtQ mesh bounds md mt) = true :=
  octGoodB_build_octree_go sqrtQ md mt _ mesh bounds 0

theorem octreeTileChildren_eq_nil_iff (E : Ext)
    (cs : List (Option OctreeNode)) :
    ∀ (i : ℕ) (addr : List Char) (lvl : ℕ) (ge : ℚ)
      (mats : MaterialLibrary) (tc : TextureConfig),
      (octreeTileChildren E cs i addr lvl ge mats tc = [] ↔
        cs.all Option.isNone = true) := by
  induction cs with
  | nil => intro i addr lvl ge mats tc; simp [octreeTileChildren]
  | cons c rest ih =>
    intro i addr lvl ge mats tc
    cases c with
    | none =>
      rw [octreeTileChildren, List.all_cons]
      simpa using ih (i + 1) addr lvl ge mats tc
    | some cn =>
      rw [octreeTileChildren, List.all_cons]
      simp

mutual

theorem tileContentNone (E : Ext) (t : OctreeNode) (addr : List Char)
    (lvl : ℕ) (b : BoundingBox) (pe : ℚ) (mats : MaterialLibrary)
    (tc : TextureConfig) (hgood : octGoodB t = true) :
    ∀ n ∈ TileNode.allNodes (octree_to_tile_node E t addr lvl b pe mats
      tc), n.children ≠ [] → n.content = none := by
  rcases t with ⟨nb, nmesh, ncs⟩
  rw [octGoodB, Bool.and_eq_true, Bool.or_eq_true] at hgood
  intro n hn hch
  rw [octree_to_tile_node, TileNode.allNodes] at hn
  rcases List.mem_cons.1 hn with rfl | hmem
  · rw [TileNode.children] at hch
    have hall : ncs.all Option.isNone = false := by
      by_contra hc
      exact hch
        ((octreeTileChildren_eq_nil_iff E ncs 0 addr (lvl + 1) _ mats
          tc).2 (Bool.of_not_eq_false hc))
    have hempty : nmesh.is_empty = true := by
      rcases hgood.1 with h | h
      · rw [hall] at h; exact absurd h (by decide)
      · exact h
    rw [TileNode.content, hempty]
    rfl
  · exact tileContentNoneList E ncs 0 addr (lvl + 1) _ mats tc hgood.2 n
      hmem hch

theorem tileContentNoneList (E : Ext) (cs : List (Option OctreeNode))
    (i : ℕ) (addr : List Char) (lvl : ℕ) (ge : ℚ)
    (mats : MaterialLibrary) (tc : TextureConfig)
    (hgood : octGoodListB cs = true) :
    ∀ n ∈ TileNode.allNodesList (octreeTileChildren E cs i addr lvl ge
      mats tc), n.children ≠ [] → n.content = none := by
  match cs, hgood with
  | [], _ =>
    intro n hn
    rw [octreeTileChildren, TileNode.allNodesList] at hn
    exact absurd hn (List.not_mem_nil n)
  | none :: rest, hgood =>
    rw [octGoodListB] at hgood
    intro n hn hch
    rw [octreeTileChildren] at hn
    exact tileContentNoneList E rest (i + 1) addr lvl ge mats tc hgood n
      hn hch
  | some c :: rest, hgood =>
    rw [octGoodListB, Bool.and_eq_true] at hgood
    intro n hn hch
    rw [octreeTileChildren, TileNode.allNodesList] at hn
    rcases List.mem_append.1 hn with hmem | hmem
    · exact tileContentNone E c _ lvl c.bounds ge mats tc hgood.1 n hmem
        hch
    · exact tileContentNoneList E rest (i + 1) addr lvl ge mats tc
        hgood.2 n hmem hch

end

/-- Counterexample for claim C1 as stated: a one-level tileset over a
single triangle with `maxTrianglesPerTile = 0` and `maxDepth = 1`
subdivides once; the root is internal (it has one child) yet carries no
content record. -/
theorem claim_C1_counterexample :
    ((build_tileset extZero [triChain] unitBox ⟨0, 1⟩ ⟨[], []⟩
        texOff).root.children.length = 1) ∧
    ((build_tileset extZero [triChain] unitBox ⟨0, 1⟩ ⟨[], []⟩
        texOff).root.content = none) :=
  ⟨by decide, by decide⟩

/-- Claim C1 (amended): in a tileset built from at most one non-empty LOD
level (the octree path of `build_tileset`, the path the claim's cited
code implements), every internal node carries NO content record: internal
octree nodes hold the empty mesh, and content is attached exactly to
nodes with a non-empty mesh. -/
theorem claim_C1 (E : Ext) (chains : List LodChain)
    (bounds : BoundingBox) (config : TilingConfig)
    (mats : MaterialLibrary) (tc : TextureConfig)
    (h : (levelMeshesOf chains).length ≤ 1) :
    ∀ n ∈ TileNode.allNodes
      (build_tileset E chains bounds config mats tc).root,
      n.children ≠ [] → n.content = none := by
  simp only [build_tileset]
  rw [if_pos h]
  exact tileContentNone E _ _ 0 bounds 0 mats tc
    (octGoodB_build_octree E.sqrtQ _ bounds config.max_depth
      config.max_triangles_per_tile)

/-- Witness for claim C1: the internal root of the concrete subdividing
single-level tileset has no content. -/
theorem claim_C1_witness :
    (build_tileset extZero [triChain] unitBox ⟨0, 1⟩ ⟨[], []⟩
      texOff).root.content = none := by
  have h := claim_C1 extZero [triChain] unitBox ⟨0, 1⟩ ⟨[], []⟩ texOff
    (by decide)
  refine h _ ?_ ?_
  · rcases hroot : (build_tileset extZero [triChain] unitBox ⟨0, 1⟩
        ⟨[], []⟩ texOff).root with ⟨a, l, b, g, c, cs⟩
    rw [TileNode.allNodes]
    exact List.mem_cons_self _ _
  · intro hce
    have hlen : (build_tileset extZero [triChain] unitBox ⟨0, 1⟩ ⟨[], []⟩
        texOff).root.children.length = 1 := by decide
    rw [hce] at hlen
    exact absurd hlen (by decide)

mutual

theorem tileErrSpec (E : Ext) (t : OctreeNode) (addr : List Char)
    (lvl : ℕ) (b : BoundingBox) (pe : ℚ) (mats : MaterialLibrary)
    (tc : TextureConfig) :
    errSpecB E.sqrtQ (octree_to_tile_node E t addr lvl b pe mats tc) lvl =
      true := by
  rcases t with ⟨nb, nmesh, ncs⟩
  rw [octree_to_tile_node]
  by_cases hleaf : ncs.all Option.isNone = true
  · simp only [hleaf, if_true]
    rw [(octreeTileChildren_eq_nil_iff E ncs 0 addr (lvl + 1) 0 mats
      tc).2 hleaf]
    simp [errSpecB, errSpecListB]
  · have hleaf' : ncs.all Option.isNone = false := by
      simpa using hleaf
    simp only [hleaf', Bool.false_eq_true, if_false]
    rw [errSpecB]
    have hne : octreeTileChildren E ncs 0 addr (lvl + 1)
        (BoundingBox.diagonal E.sqrtQ b * (1/2) ^ lvl) mats tc ≠ [] := by
      intro hc
      have := (octreeTileChildren_eq_nil_iff E ncs 0 addr (lvl + 1) _
        mats tc).1 hc
      rw [hleaf'] at this
      exact absurd this (by decide)
    rw [if_neg fun hc => hne ((List.isEmpty_iff).1 hc),
      tileErrSpecList E ncs 0 addr (lvl + 1) _ mats tc]
    simp

theorem tileErrSpecList (E : Ext) (cs : List (Option OctreeNode))
    (i : ℕ) (addr : List Char) (lvl : ℕ) (ge : ℚ)
    (mats : MaterialLibrary) (tc : TextureConfig) :
    errSpecListB E.sqrtQ (octreeTileChildren E cs i addr lvl ge mats tc)
      lvl = true := by
  match cs with
  | [] => rfl
  | none :: rest =>
    rw [octreeTileChildren]
    exact tileErrSpecList E rest (i + 1) addr lvl ge mats tc
  | some c :: rest =>
    rw [octreeTileChildren, errSpecListB,
      tileErrSpec E c _ lvl c.bounds ge mats tc,
      tileErrSpecList E rest (i + 1) addr lvl ge mats tc]
    rfl

end

/-- Counterexample for claim C2 as stated: a two-level LOD tileset has an
internal root (one child) whose geometric error is the coarsest chain's
error `1/2`, not the bounding-box space diagonal times `0.5⁰` (which is
`√3 ≈ 17/10` for the unit box). -/
theorem claim_C2_counterexample :
    ((build_tileset extSqrt3 [twoLevelChain] unitBox ⟨100, 4⟩ ⟨[], []⟩
        texOff).root.children.length = 1) ∧
    ((build_tileset extSqrt3 [twoLevelChain] unitBox ⟨100, 4⟩ ⟨[], []⟩
        texOff).root.geometric_error = 1/2) ∧
    BoundingBox.diagonal extSqrt3.sqrtQ
        (build_tileset extSqrt3 [twoLevelChain] unitBox ⟨100, 4⟩ ⟨[], []⟩
          texOff).root.bounds * (1/2 : ℚ) ^ (0 : ℕ) = 17/10 ∧
    (1/2 : ℚ) ≠ 17/10 :=
  ⟨by decide, by decide, by decide, by decide⟩

/-- Claim C2 (amended): in a tileset built from at most one non-empty LOD
level (the octree path the claim's cited code implements), every leaf has
geometric error 0 and every internal node at depth `d` has geometric
error `diagonal(bounds) · 0.5^d`; multi-level tilesets instead carry the
LOD chain errors at the root and intermediate tiles and
`diagonal · 0.1` at internal octree nodes. -/
theorem claim_C2 (E : Ext) (chains : List LodChain)
    (bounds : BoundingBox) (config : TilingConfig)
    (mats : MaterialLibrary) (tc : TextureConfig)
    (h : (levelMeshesOf chains).length ≤ 1) :
    errSpecB E.sqrtQ (build_tileset E chains bounds config mats tc).root
      0 = true := by
  simp only [build_tileset]
  rw [if_pos h]
  exact tileErrSpec E _ _ 0 bounds 0 mats tc

/-- Witness for claim C2: the error discipline holds on the concrete
subdividing single-level tileset. -/
theorem claim_C2_witness :
    errSpecB extZero.sqrtQ
      (build_tileset extZero [triChain] unitBox ⟨0, 1⟩ ⟨[], []⟩
        texOff).root 0 = true :=
  claim_C2 extZero [triChain] unitBox ⟨0, 1⟩ ⟨[], []⟩ texOff (by decide)

/-! ### Claim C7: when atlas repacking is "not applicable" -/

theorem islandStep_len_le (mesh : IndexedMesh) (fa : List (List ℕ))
    (nf : ℕ) (st : List Bool × List UvIsland) (start : ℕ) :
    st.2.length ≤ (islandStep mesh fa nf st start).2.length := by
  rw [islandStep]
  split
  · exact le_refl _
  · simp

theorem foldl_islandStep_len_le (mesh : IndexedMesh) (fa : List (List ℕ))
    (nf : ℕ) (l : List ℕ) :
    ∀ st : List Bool × List UvIsland,
      st.2.length ≤ (l.foldl (islandStep mesh fa nf) st).2.length := by
  induction l with
  | nil => intro st; exact le_refl _
  | cons x rest ih =>
    intro st
    exact le_trans (islandStep_len_le mesh fa nf st x) (ih _)

theorem foldl_islandStep_ne_nil (mesh : IndexedMesh)
    (fa : List (List ℕ)) (k : ℕ) :
    ((List.range (k + 1)).foldl (islandStep mesh fa (k + 1))
      (List.replicate (k + 1) false, [])).2 ≠ [] := by
  intro h
  rw [List.range_succ_eq_map, List.foldl_cons] at h
  have h0 : 1 ≤ (islandStep mesh fa (k + 1)
      (List.replicate (k + 1) false, ([] : List UvIsland)) 0).2.length := by
    rw [islandStep]
    simp [List.replicate_succ]
  have hle := le_trans h0
    (foldl_islandStep_len_le mesh fa (k + 1)
      ((List.range k).map Nat.succ) _)
  rw [h] at hle
  exact absurd hle (by decide)

theorem detect_islands_eq_nil_iff (mesh : IndexedMesh)
    (adjacency : List ((ℕ × ℕ) × List ℕ)) :
    detect_islands mesh adjacency = [] ↔ mesh.triangle_count = 0 := by
  constructor
  · intro h
    by_contra htc
    rcases Nat.exists_eq_succ_of_ne_zero htc with ⟨k, hk⟩
    rw [detect_islands] at h
    simp only [hk] at h
    exact foldl_islandStep_ne_nil mesh _ k h
  · intro h
    rw [detect_islands]
    simp [h]

/-- Counterexample for claim C7 as stated: a mesh with UVs, a valid
material handle, a present and decodable base-color texture (raw RGBA of
length `1·1·4`) but no triangles makes `repack_atlas` return `None`
(there are no UV islands), although none of the claim's listed conditions
holds. -/
theorem claim_C7_counterexample :
    let mesh : IndexedMesh :=
      ⟨[0, 0, 0], [], [0, 0], [], [], some 0⟩
    let tex : TextureData := ⟨[1, 2, 3, 4], [], 1, 1⟩
    let mats : MaterialLibrary := ⟨[⟨[], ⟨1, 1, 1, 1⟩, 0, 1, some 0⟩], [tex]⟩
    (repack_atlas extZero mesh mats texOff = none) ∧
    mesh.has_uvs = true ∧
    mesh.material_index = some 0 ∧
    (∃ mat, mats.materials[0]? = some mat ∧
      mat.base_color_texture = some 0) ∧
    (decode_texture extZero tex).isSome = true := by
  refine ⟨by decide, by decide, by decide, ⟨⟨[], ⟨1, 1, 1, 1⟩, 0, 1, some 0⟩, by decide, by decide⟩, by decide⟩

/-- Claim C7 (amended): `repack_atlas` returns `None` exactly when the
mesh has no UVs, no material handle, the material or texture handle is
out of range, the material has no base-color texture, the texture bytes
fail to decode (encoded decoders, then raw RGBA at `W·H·4`, then raw RGB
at `W·H·3`), or — beyond the claim's list — the mesh has no triangles
(hence no UV islands); in every other case it returns a repacked mesh
and an encoded atlas texture. -/
theorem claim_C7 (E : Ext) (mesh : IndexedMesh) (mats : MaterialLibrary)
    (cfg : TextureConfig) :
    repack_atlas E mesh mats cfg = none ↔
      (mesh.has_uvs = false ∨
       mesh.material_index = none ∨
       (∃ mi, mesh.material_index = some mi ∧
         (mats.materials[mi]? = none ∨
          ∃ mat, mats.materials[mi]? = some mat ∧
            (mat.base_color_texture = none ∨
             ∃ ti, mat.base_color_texture = some ti ∧
               (mats.textures[ti]? = none ∨
                ∃ tex, mats.textures[ti]? = some tex ∧
                  decode_texture E tex = none)))) ∨
       mesh.triangle_count = 0) := by
  cases hu : mesh.has_uvs with
  | false =>
    simp only [repack_atlas, hu, Bool.not_false, if_true]
    simp
  | true =>
    rcases hmi : mesh.material_index with _ | mi
    · simp only [repack_atlas, hu, Bool.not_true, Bool.false_eq_true,
        if_false, hmi]
      simp
    · rcases hmat : mats.materials[mi]? with _ | mat
      · simp only [repack_atlas, hu, Bool.not_true, Bool.false_eq_true,
          if_false, hmi, hmat]
        constructor
        · intro _
          exact Or.inr (Or.inr (Or.inl ⟨mi, rfl, Or.inl hmat⟩))
        · intro _; trivial
      · rcases hbct : mat.base_color_texture with _ | ti
        · simp only [repack_atlas, hu, Bool.not_true, Bool.false_eq_true,
            if_false, hmi, hmat, hbct]
          constructor
          · intro _
            exact Or.inr (Or.inr (Or.inl
              ⟨mi, rfl, Or.inr ⟨mat, hmat, Or.inl hbct⟩⟩))
          · intro _; trivial
        · rcases htex : mats.textures[ti]? with _ | tex
          · simp only [repack_atlas, hu, Bool.not_true,
              Bool.false_eq_true, if_false, hmi, hmat, hbct, htex]
            constructor
            · intro _
              exact Or.inr (Or.inr (Or.inl ⟨mi, rfl, Or.inr
                ⟨mat, hmat, Or.inr ⟨ti, hbct, Or.inl htex⟩⟩⟩))
            · intro _; trivial
          · rcases hdec : decode_texture E tex with _ | img
            · simp only [repack_atlas, hu, Bool.not_true,
                Bool.false_eq_true, if_false, hmi, hmat, hbct, htex,
                hdec]
              constructor
              · intro _
                exact Or.inr (Or.inr (Or.inl ⟨mi, rfl, Or.inr
                  ⟨mat, hmat, Or.inr ⟨ti, hbct, Or.inr
                    ⟨tex, htex, hdec⟩⟩⟩⟩))
              · intro _; trivial
            · simp only [repack_atlas, hu, Bool.not_true,
                Bool.false_eq_true, if_false, hmi, hmat, hbct, htex,
                hdec]
              constructor
              · intro h
                by_cases hisl :
                    (detect_islands mesh (build_edge_adjacency
                      mesh)).isEmpty = true
                · exact Or.inr (Or.inr (Or.inr
                    ((detect_islands_eq_nil_iff mesh _).1
                      (List.isEmpty_iff.1 hisl))))
                · rw [if_neg hisl] at h
                  exact absurd h (by simp)
              · intro hdisj
                have hisl : (detect_islands mesh
                    (build_edge_adjacency mesh)).isEmpty = true := by
                  rcases hdisj with h | h | h | h
                  · exact absurd h (by decide)
                  · exact absurd h (by simp)
                  · rcases h with ⟨mi2, hmi2, hrest⟩
                    injection hmi2 with hmi2
                    subst hmi2
                    rcases hrest with h2 | ⟨mat2, hmat2, hrest2⟩
                    · rw [hmat] at h2; exact absurd h2 (by simp)
                    · rw [hmat] at hmat2
                      injection hmat2 with hmat2
                      subst hmat2
                      rcases hrest2 with h3 | ⟨ti2, hti2, hrest3⟩
                      · rw [hbct] at h3; exact absurd h3 (by simp)
                      · rw [hbct] at hti2
                        injection hti2 with hti2
                        subst hti2
                        rcases hrest3 with h4 | ⟨tex2, htex2, hdec2⟩
                        · rw [htex] at h4; exact absurd h4 (by simp)
                        · rw [htex] at htex2
                          injection htex2 with htex2
                          subst htex2
                          rw [hdec] at hdec2
                          exact absurd hdec2 (by simp)
                  · exact List.isEmpty_iff.2
                      ((detect_islands_eq_nil_iff mesh _).2 h)
                rw [if_pos hisl]

/-! ### The clipper fast path (claims C4 and C6) -/

theorem eqListNine {α : Type} (l : List α) (d : α) (h : l.length = 9) :
    [(l[0]?).getD d, (l[1]?).getD d, (l[2]?).getD d, (l[3]?).getD d,
     (l[4]?).getD d, (l[5]?).getD d, (l[6]?).getD d, (l[7]?).getD d,
     (l[8]?).getD d] = l := by
  rcases l with _ | ⟨a0, l⟩
  · simp at h
  rcases l with _ | ⟨a1, l⟩
  · simp at h
  rcases l with _ | ⟨a2, l⟩
  · simp at h
  rcases l with _ | ⟨a3, l⟩
  · simp at h
  rcases l with _ | ⟨a4, l⟩
  · simp at h
  rcases l with _ | ⟨a5, l⟩
  · simp at h
  rcases l with _ | ⟨a6, l⟩
  · simp at h
  rcases l with _ | ⟨a7, l⟩
  · simp at h
  rcases l with _ | ⟨a8, l⟩
  · simp at h
  rcases l with _ | ⟨a9, l⟩
  · rfl
  · simp only [List.length_cons] at h; omega

theorem eqListSix {α : Type} (l : List α) (d : α) (h : l.length = 6) :
    [(l[0]?).getD d, (l[1]?).getD d, (l[2]?).getD d, (l[3]?).getD d,
     (l[4]?).getD d, (l[5]?).getD d] = l := by
  rcases l with _ | ⟨a0, l⟩
  · simp at h
  rcases l with _ | ⟨a1, l⟩
  · simp at h
  rcases l with _ | ⟨a2, l⟩
  · simp at h
  rcases l with _ | ⟨a3, l⟩
  · simp at h
  rcases l with _ | ⟨a4, l⟩
  · simp at h
  rcases l with _ | ⟨a5, l⟩
  · simp at h
  rcases l with _ | ⟨a6, l⟩
  · rfl
  · simp only [List.length_cons] at h; omega

theorem eqListTwelve {α : Type} (l : List α) (d : α) (h : l.length = 12) :
    [(l[0]?).getD d, (l[1]?).getD d, (l[2]?).getD d, (l[3]?).getD d,
     (l[4]?).getD d, (l[5]?).getD d, (l[6]?).getD d, (l[7]?).getD d,
     (l[8]?).getD d, (l[9]?).getD d, (l[10]?).getD d,
     (l[11]?).getD d] = l := by
  rcases l with _ | ⟨a0, l⟩
  · simp at h
  rcases l with _ | ⟨a1, l⟩
  · simp at h
  rcases l with _ | ⟨a2, l⟩
  · simp at h
  rcases l with _ | ⟨a3, l⟩
  · simp at h
  rcases l with _ | ⟨a4, l⟩
  · simp at h
  rcases l with _ | ⟨a5, l⟩
  · simp at h
  rcases l with _ | ⟨a6, l⟩
  · simp at h
  rcases l with _ | ⟨a7, l⟩
  · simp at h
  rcases l with _ | ⟨a8, l⟩
  · simp at h
  rcases l with _ | ⟨a9, l⟩
  · simp at h
  rcases l with _ | ⟨a10, l⟩
  · simp at h
  rcases l with _ | ⟨a11, l⟩
  · simp at h
  rcases l with _ | ⟨a12, l⟩
  · rfl
  · simp only [List.length_cons] at h; omega

theorem bangIsEmpty_true {α : Type} (l : List α) (n : ℕ) (h : l.length = n)
    (hn : n ≠ 0) : (!l.isEmpty) = true := by
  cases l with
  | nil => simp at h; omega
  | cons a t => rfl

theorem bangIsEmpty_false {α : Type} (l : List α) (h : l = []) :
    (!l.isEmpty) = false := by
  subst h; rfl

theorem octant_index_lt (c p : V3) : octant_index c p < 8 := by
  unfold octant_index
  split <;> split <;> split <;> norm_num

theorem updAt_cons_zero {α : Type} (a : α) (l : List α) (f : α → α) :
    updAt (a :: l) 0 f = f a :: l := rfl

theorem updAt_cons_succ {α : Type} (a : α) (l : List α) (f : α → α)
    (i : ℕ) :
    updAt (a :: l) (i + 1) f = a :: updAt l i f := rfl

theorem map_updAt_replicate {α β : Type} (g : α → β) (a : α) (f : α → α)
    (n i : ℕ) (h : i < n) :
    (updAt (List.replicate n a) i f).map g =
      (List.replicate n (g a)).set i (g (f a)) := by
  induction n generalizing i with
  | zero => omega
  | succ n ih =>
    cases i with
    | zero =>
      simp [List.replicate_succ, updAt_cons_zero]
    | succ i =>
      rw [List.replicate_succ, updAt_cons_succ, List.map_cons,
        List.replicate_succ, List.set_cons_succ, ih i (by omega)]

theorem add_triangle_new (hn hu hc : Bool) (v0 v1 v2 : ClipVertex)
    (k01 : positionKey v0.pos ≠ positionKey v1.pos)
    (k12 : positionKey v1.pos ≠ positionKey v2.pos)
    (k02 : positionKey v0.pos ≠ positionKey v2.pos) :
    (OctantMeshBuilder.new hn hu hc).add_triangle v0 v1 v2 =
      ⟨[v0.pos.x, v0.pos.y, v0.pos.z, v1.pos.x, v1.pos.y, v1.pos.z,
        v2.pos.x, v2.pos.y, v2.pos.z],
       if hn then
         [v0.normal.x, v0.normal.y, v0.normal.z, v1.normal.x, v1.normal.y,
          v1.normal.z, v2.normal.x, v2.normal.y, v2.normal.z]
       else [],
       if hu then [v0.uv.u, v0.uv.v, v1.uv.u, v1.uv.v, v2.uv.u, v2.uv.v]
       else [],
       if hc then
         [v0.color.r, v0.color.g, v0.color.b, v0.color.a, v1.color.r,
          v1.color.g, v1.color.b, v1.color.a, v2.color.r, v2.color.g,
          v2.color.b, v2.color.a]
       else [],
       [0, 1, 2],
       [(positionKey v2.pos, 2), (positionKey v1.pos, 1),
        (positionKey v0.pos, 0)],
       hn, hu, hc⟩ := by
  have hb10 : (positionKey v1.pos == positionKey v0.pos) = false :=
    beq_eq_false_iff_ne.mpr (Ne.symm k01)
  have hb20 : (positionKey v2.pos == positionKey v0.pos) = false :=
    beq_eq_false_iff_ne.mpr (Ne.symm k02)
  have hb21 : (positionKey v2.pos == positionKey v1.pos) = false :=
    beq_eq_false_iff_ne.mpr (Ne.symm k12)
  cases hn <;> cases hu <;> cases hc <;>
    simp [OctantMeshBuilder.add_triangle, OctantMeshBuilder.add_vertex,
      OctantMeshBuilder.new, List.lookup, hb10, hb20, hb21]

theorem split_fast_path (sq : ℚ → ℚ) (m : IndexedMesh)
    (bounds : BoundingBox) (o : ℕ)
    (hidx : m.indices = [0, 1, 2])
    (h0 : octant_index bounds.center (meshPos m 0) = o)
    (h1 : octant_index bounds.center (meshPos m 1) = o)
    (h2 : octant_index bounds.center (meshPos m 2) = o)
    (hk01 : positionKey (meshPos m 0) ≠ positionKey (meshPos m 1))
    (hk12 : positionKey (meshPos m 1) ≠ positionKey (meshPos m 2))
    (hk02 : positionKey (meshPos m 0) ≠ positionKey (meshPos m 2))
    (hpos : m.positions.length = 9)
    (hnor : m.normals = [] ∨ m.normals.length = 9)
    (huvl : m.uvs = [] ∨ m.uvs.length = 6)
    (hcol : m.colors = [] ∨ m.colors.length = 12) :
    split_mesh_clipping sq m bounds =
      (List.replicate 8
        (IndexedMesh.mk [] [] [] [] [] m.material_index)).set o m := by
  have ho8 : o < 8 := h0 ▸ octant_index_lt bounds.center (meshPos m 0)
  simp only [split_mesh_clipping]
  rw [hidx]
  rw [show chunk3 [0, 1, 2] = [(0, 1, 2)] from rfl]
  rw [List.foldl_cons, List.foldl_nil]
  simp only [splitTriangleStep]
  have h0' : octant_index bounds.center
      ⟨m.positions.getD (0 * 3) 0, m.positions.getD (0 * 3 + 1) 0,
       m.positions.getD (0 * 3 + 2) 0⟩ = o := h0
  have h1' : octant_index bounds.center
      ⟨m.positions.getD (1 * 3) 0, m.positions.getD (1 * 3 + 1) 0,
       m.positions.getD (1 * 3 + 2) 0⟩ = o := h1
  have h2' : octant_index bounds.center
      ⟨m.positions.getD (2 * 3) 0, m.positions.getD (2 * 3 + 1) 0,
       m.positions.getD (2 * 3 + 2) 0⟩ = o := h2
  rw [h0', h1', h2']
  rw [if_pos (⟨rfl, rfl⟩ : o = o ∧ o = o)]
  rw [map_updAt_replicate
    (fun b => OctantMeshBuilder.build b m.material_index)
    (OctantMeshBuilder.new m.has_normals m.has_uvs m.has_colors) _ 8 o ho8]
  rw [add_triangle_new m.has_normals m.has_uvs m.has_colors
    (extract_clip_vertex m 0) (extract_clip_vertex m 1)
    (extract_clip_vertex m 2) hk01 hk12 hk02]
  congr 1
  simp only [OctantMeshBuilder.build, extract_clip_vertex]
  have hm : m = ⟨m.positions, m.normals, m.uvs, m.colors, m.indices,
      m.material_index⟩ := rfl
  rcases hnor with hne | hn9
  · have hhn : m.has_normals = false := bangIsEmpty_false m.normals hne
    rcases huvl with hue | hu6
    · have hhu : m.has_uvs = false := bangIsEmpty_false m.uvs hue
      rcases hcol with hce | hc12
      · have hhc : m.has_colors = false := bangIsEmpty_false m.colors hce
        simp [hhn, hhu, hhc]
        conv_rhs => rw [hm]
        simp only [IndexedMesh.mk.injEq]
        exact ⟨eqListNine _ _ hpos, hne.symm, hue.symm, hce.symm,
          hidx.symm, trivial⟩
      · have hhc : m.has_colors = true :=
          bangIsEmpty_true m.colors 12 hc12 (by omega)
        simp [hhn, hhu, hhc]
        conv_rhs => rw [hm]
        simp only [IndexedMesh.mk.injEq]
        exact ⟨eqListNine _ _ hpos, hne.symm, hue.symm,
          eqListTwelve _ _ hc12, hidx.symm, trivial⟩
    · have hhu : m.has_uvs = true :=
        bangIsEmpty_true m.uvs 6 hu6 (by omega)
      rcases hcol with hce | hc12
      · have hhc : m.has_colors = false := bangIsEmpty_false m.colors hce
        simp [hhn, hhu, hhc]
        conv_rhs => rw [hm]
        simp only [IndexedMesh.mk.injEq]
        exact ⟨eqListNine _ _ hpos, hne.symm, eqListSix _ _ hu6, hce.symm,
          hidx.symm, trivial⟩
      · have hhc : m.has_colors = true :=
          bangIsEmpty_true m.colors 12 hc12 (by omega)
        simp [hhn, hhu, hhc]
        conv_rhs => rw [hm]
        simp only [IndexedMesh.mk.injEq]
        exact ⟨eqListNine _ _ hpos, hne.symm, eqListSix _ _ hu6,
          eqListTwelve _ _ hc12, hidx.symm, trivial⟩
  · have hhn : m.has_normals = true :=
      bangIsEmpty_true m.normals 9 hn9 (by omega)
    rcases huvl with hue | hu6
    · have hhu : m.has_uvs = false := bangIsEmpty_false m.uvs hue
      rcases hcol with hce | hc12
      · have hhc : m.has_colors = false := bangIsEmpty_false m.colors hce
        simp [hhn, hhu, hhc]
        conv_rhs => rw [hm]
        simp only [IndexedMesh.mk.injEq]
        exact ⟨eqListNine _ _ hpos, eqListNine _ _ hn9, hue.symm, hce.symm,
          hidx.symm, trivial⟩
      · have hhc : m.has_colors = true :=
          bangIsEmpty_true m.colors 12 hc12 (by omega)
        simp [hhn, hhu, hhc]
        conv_rhs => rw [hm]
        simp only [IndexedMesh.mk.injEq]
        exact ⟨eqListNine _ _ hpos, eqListNine _ _ hn9, hue.symm,
          eqListTwelve _ _ hc12, hidx.symm, trivial⟩
    · have hhu : m.has_uvs = true :=
        bangIsEmpty_true m.uvs 6 hu6 (by omega)
      rcases hcol with hce | hc12
      · have hhc : m.has_colors = false := bangIsEmpty_false m.colors hce
        simp [hhn, hhu, hhc]
        conv_rhs => rw [hm]
        simp only [IndexedMesh.mk.injEq]
        exact ⟨eqListNine _ _ hpos, eqListNine _ _ hn9, eqListSix _ _ hu6,
          hce.symm, hidx.symm, trivial⟩
      · have hhc : m.has_colors = true :=
          bangIsEmpty_true m.colors 12 hc12 (by omega)
        simp [hhn, hhu, hhc]
        conv_rhs => rw [hm]
        simp only [IndexedMesh.mk.injEq]
        exact ⟨eqListNine _ _ hpos, eqListNine _ _ hn9, eqListSix _ _ hu6,
          eqListTwelve _ _ hc12, hidx.symm, trivial⟩

theorem meshArea_of_no_indices (mi : Option ℕ) :
    meshArea (IndexedMesh.mk [] [] [] [] [] mi) = 0 := by
  simp [meshArea, chunk3]

theorem sum_set_replicate_zero (n i : ℕ) (x : ℝ) (h : i < n) :
    ((List.replicate n (0 : ℝ)).set i x).sum = x := by
  induction n generalizing i with
  | zero => omega
  | succ n ih =>
    cases i with
    | zero => simp [List.replicate_succ, List.sum_replicate]
    | succ i => simp [List.replicate_succ, ih i (by omega)]

/-- Claim C4 counterexample: the micro-triangle `microTriMesh` (edge
`2⁻²³`, positive area) lies entirely in one octant, but all three vertices
quantize to the same 1 µm position key, so the dedup pass collapses the
triangle and the clipper drops it: the summed fragment area is `0`, far
outside the claimed `10⁻⁴` relative tolerance of the original area. -/
theorem claim_C4_counterexample :
    fragmentAreaSum
        (split_mesh_clipping (fun _ => 0) microTriMesh unitBox) = 0 ∧
    0 < meshArea microTriMesh ∧
    (1/10^4) * meshArea microTriMesh <
      |fragmentAreaSum
          (split_mesh_clipping (fun _ => 0) microTriMesh unitBox) -
        meshArea microTriMesh| := by
  have hsplit : split_mesh_clipping (fun _ => 0) microTriMesh unitBox =
      IndexedMesh.mk [0, 0, 0] [] [] [] [] none ::
        List.replicate 7 (IndexedMesh.mk [] [] [] [] [] none) := by
    decide
  have hzero : fragmentAreaSum
      (split_mesh_clipping (fun _ => 0) microTriMesh unitBox) = 0 := by
    rw [hsplit]
    simp [fragmentAreaSum, meshArea, chunk3]
  have hcs : crossSq microTriMesh 0 1 2 = 1/2^92 := by decide
  have hMA : meshArea microTriMesh =
      Real.sqrt (((1/2^92 : ℚ) : ℝ)) / 2 := by
    simp only [meshArea,
      show chunk3 microTriMesh.indices = [(0, 1, 2)] from rfl,
      List.map_cons, List.map_nil, List.sum_cons, List.sum_nil, add_zero,
      triArea, hcs]
  have hApos : 0 < meshArea microTriMesh := by
    rw [hMA]
    positivity
  refine ⟨hzero, hApos, ?_⟩
  rw [hzero, zero_sub, abs_neg, abs_of_pos hApos]
  linarith [hApos]

/-- Claim C4 (amended): on the clipper's fast path — a triangle whose
three vertices classify to the same octant and whose quantized 1 µm
position keys are pairwise distinct — the summed fragment area across the
eight outputs equals the original area exactly, not merely within the
`10⁻⁴` relative tolerance (which the dedup collapse of
`claim_C4_counterexample` violates). -/
theorem claim_C4 (sq : ℚ → ℚ) (m : IndexedMesh) (bounds : BoundingBox)
    (o : ℕ)
    (hidx : m.indices = [0, 1, 2])
    (h0 : octant_index bounds.center (meshPos m 0) = o)
    (h1 : octant_index bounds.center (meshPos m 1) = o)
    (h2 : octant_index bounds.center (meshPos m 2) = o)
    (hk01 : positionKey (meshPos m 0) ≠ positionKey (meshPos m 1))
    (hk12 : positionKey (meshPos m 1) ≠ positionKey (meshPos m 2))
    (hk02 : positionKey (meshPos m 0) ≠ positionKey (meshPos m 2))
    (hpos : m.positions.length = 9)
    (hnor : m.normals = [] ∨ m.normals.length = 9)
    (huvl : m.uvs = [] ∨ m.uvs.length = 6)
    (hcol : m.colors = [] ∨ m.colors.length = 12) :
    fragmentAreaSum (split_mesh_clipping sq m bounds) = meshArea m := by
  have ho8 : o < 8 := h0 ▸ octant_index_lt bounds.center (meshPos m 0)
  rw [split_fast_path sq m bounds o hidx h0 h1 h2 hk01 hk12 hk02 hpos hnor
    huvl hcol]
  rw [fragmentAreaSum, List.map_set, List.map_replicate,
    meshArea_of_no_indices]
  exact sum_set_replicate_zero 8 o (meshArea m) ho8

/-- Witness for claim C4: the fast-path area identity holds of the
concrete triangle `triMesh` in the unit box. -/
theorem claim_C4_witness :
    fragmentAreaSum (split_mesh_clipping (fun _ => 0) triMesh unitBox) =
      meshArea triMesh :=
  claim_C4 (fun _ => 0) triMesh unitBox 0 (by decide) (by decide)
    (by decide) (by decide) (by decide) (by decide) (by decide) (by decide)
    (by decide) (by decide) (by decide)

/-- Claim C6 counterexample: the micro-triangle `microTriMesh7` has all
three vertices in octant 7, yet the clipper emits no triangle at all into
that octant (the 1 µm dedup collapses its vertices), contradicting
"emits exactly one triangle into that octant". -/
theorem claim_C6_counterexample :
    octant_index unitBox.center (meshPos microTriMesh7 0) = 7 ∧
    octant_index unitBox.center (meshPos microTriMesh7 1) = 7 ∧
    octant_index unitBox.center (meshPos microTriMesh7 2) = 7 ∧
    microTriMesh7.indices = [0, 1, 2] ∧
    ((split_mesh_clipping (fun _ => 0) microTriMesh7 unitBox).getD 7
        IndexedMesh.empty).indices = [] := by
  decide

/-- Claim C6 (amended): for a single-triangle mesh whose three vertices
classify to the same octant `o` AND whose quantized 1 µm position keys are
pairwise distinct, the clipper emits the triangle verbatim into octant `o`
(the output there is the input mesh itself, with all attribute buffers
carried over) and contributes nothing to the other seven octants (they are
empty meshes); without the distinct-key condition the triangle can be
dropped, as `claim_C6_counterexample` shows. -/
theorem claim_C6 (sq : ℚ → ℚ) (m : IndexedMesh) (bounds : BoundingBox)
    (o : ℕ)
    (hidx : m.indices = [0, 1, 2])
    (h0 : octant_index bounds.center (meshPos m 0) = o)
    (h1 : octant_index bounds.center (meshPos m 1) = o)
    (h2 : octant_index bounds.center (meshPos m 2) = o)
    (hk01 : positionKey (meshPos m 0) ≠ positionKey (meshPos m 1))
    (hk12 : positionKey (meshPos m 1) ≠ positionKey (meshPos m 2))
    (hk02 : positionKey (meshPos m 0) ≠ positionKey (meshPos m 2))
    (hpos : m.positions.length = 9)
    (hnor : m.normals = [] ∨ m.normals.length = 9)
    (huvl : m.uvs = [] ∨ m.uvs.length = 6)
    (hcol : m.colors = [] ∨ m.colors.length = 12) :
    split_mesh_clipping sq m bounds =
      (List.replicate 8
        (IndexedMesh.mk [] [] [] [] [] m.material_index)).set o m :=
  split_fast_path sq m bounds o hidx h0 h1 h2 hk01 hk12 hk02 hpos hnor
    huvl hcol

/-- Witness for claim C6: the concrete triangle `triMeshB` lands verbatim
in octant 7 of the unit box and nowhere else. -/
theorem claim_C6_witness :
    split_mesh_clipping (fun _ => 0) triMeshB unitBox =
      (List.replicate 8
        (IndexedMesh.mk [] [] [] [] [] triMeshB.material_index)).set 7
        triMeshB :=
  claim_C6 (fun _ => 0) triMeshB unitBox 7 (by decide) (by decide)
    (by decide) (by decide) (by decide) (by decide) (by decide) (by decide)
    (by decide) (by decide) (by decide)

/-! ### Mesh compaction (claim C8) -/

theorem gatherStep_some (src : List ℚ) (s : ℕ) (buf : List ℚ)
    (a ni : ℕ) :
    gatherStep src s buf (a, some ni) =
      foldWrites src (ni * s) (a * s) (List.range s) buf := rfl

theorem gatherStep_none (src : List ℚ) (s : ℕ) (buf : List ℚ) (a : ℕ) :
    gatherStep src s buf (a, none) = buf := rfl

theorem firstSeen_go_mem (indices : List ℕ) :
    ∀ (acc : List ℕ) (j : ℕ),
      (j ∈ indices.foldl
          (fun acc i => if i ∈ acc then acc else acc ++ [i]) acc ↔
        j ∈ acc ∨ j ∈ indices) := by
  induction indices with
  | nil => intro acc j; simp
  | cons i rest ih =>
    intro acc j
    simp only [List.foldl_cons]
    by_cases hi : i ∈ acc
    · rw [if_pos hi, ih]
      simp only [List.mem_cons]
      constructor
      · rintro (h | h)
        · exact Or.inl h
        · exact Or.inr (Or.inr h)
      · rintro (h | rfl | h)
        · exact Or.inl h
        · exact Or.inl hi
        · exact Or.inr h
    · rw [if_neg hi, ih]
      simp only [List.mem_append, List.mem_cons, List.mem_singleton]
      tauto

theorem firstSeen_go_nodup (indices : List ℕ) :
    ∀ acc : List ℕ, acc.Nodup →
      (indices.foldl
        (fun acc i => if i ∈ acc then acc else acc ++ [i]) acc).Nodup := by
  induction indices with
  | nil => intro acc h; exact h
  | cons i rest ih =>
    intro acc h
    simp only [List.foldl_cons]
    by_cases hi : i ∈ acc
    · rw [if_pos hi]; exact ih acc h
    · rw [if_neg hi]
      refine ih _ ?_
      rw [List.nodup_append]
      refine ⟨h, List.nodup_singleton i, ?_⟩
      intro a ha hb
      rw [List.mem_singleton] at hb
      subst hb
      exact hi ha

theorem mem_specFirstSeen (indices : List ℕ) (j : ℕ) :
    j ∈ specFirstSeen indices ↔ j ∈ indices := by
  rw [specFirstSeen, firstSeen_go_mem]
  simp

theorem nodup_specFirstSeen (indices : List ℕ) :
    (specFirstSeen indices).Nodup :=
  firstSeen_go_nodup indices [] List.nodup_nil

theorem indexOf_append_self (l : List ℕ) (a : ℕ) (h : a ∉ l) :
    (l ++ [a]).indexOf a = l.length := by
  induction l with
  | nil => simp
  | cons b t ih =>
    have hba : (b == a) = false := by
      refine beq_eq_false_iff_ne.mpr ?_
      intro he
      exact h (by simp [he])
    have ht : a ∉ t := fun ht' => h (by simp [ht'])
    simp [List.indexOf_cons, hba, ih ht]

theorem remapOf_length (vc : ℕ) (acc : List ℕ) :
    (remapOf vc acc).length = vc := by
  simp [remapOf]

theorem remapOf_getD (vc : ℕ) (acc : List ℕ) (j : ℕ) (h : j < vc) :
    (remapOf vc acc).getD j none =
      if j ∈ acc then some (acc.indexOf j) else none := by
  simp [remapOf, List.getD_eq_getElem?_getD, List.getElem?_map,
    List.getElem?_range h]

theorem remapOf_nil (vc : ℕ) : remapOf vc [] = List.replicate vc none := by
  simp [remapOf, List.map_const]

theorem remapOf_set (vc : ℕ) (acc : List ℕ) (i : ℕ) (hi : i < vc)
    (hmem : i ∉ acc) :
    (remapOf vc acc).set i (some acc.length) = remapOf vc (acc ++ [i]) := by
  apply List.ext_getElem?
  intro j
  by_cases hj : j < vc
  · have hjr : ((List.range vc))[j]? = some j := List.getElem?_range hj
    by_cases hji : j = i
    · subst hji
      have hlen : j < (remapOf vc acc).length := by
        rw [remapOf_length]; exact hj
      rw [List.getElem?_set_eq]
      · rw [remapOf, List.getElem?_map, hjr]
        simp [List.mem_append, hmem, indexOf_append_self acc j hmem]
      · exact hlen
    · rw [List.getElem?_set_ne (Ne.symm hji)]
      rw [remapOf, remapOf, List.getElem?_map, List.getElem?_map, hjr]
      simp only [Option.map_some']
      by_cases hja : j ∈ acc
      · rw [if_pos hja, if_pos (by simp [hja]),
          List.indexOf_append_of_mem hja]
      · rw [if_neg hja, if_neg (by simp [hja, hji])]
  · rw [List.getElem?_eq_none, List.getElem?_eq_none]
    · rw [remapOf_length]; omega
    · simp only [List.length_set, remapOf_length]; omega

theorem compactRemap_go (indices : List ℕ) (vc : ℕ) :
    ∀ acc : List ℕ, (∀ i ∈ indices, i < vc) →
      indices.foldl
        (fun st idx =>
          if (st.1.getD idx none).isNone then
            (st.1.set idx (some st.2), st.2 + 1)
          else st)
        (remapOf vc acc, acc.length) =
      (remapOf vc
        (indices.foldl
          (fun acc i => if i ∈ acc then acc else acc ++ [i]) acc),
       (indices.foldl
          (fun acc i => if i ∈ acc then acc else acc ++ [i])
          acc).length) := by
  induction indices with
  | nil => intro acc _; rfl
  | cons i rest ih =>
    intro acc hin
    have hi : i < vc := hin i (List.mem_cons_self i rest)
    simp only [List.foldl_cons]
    by_cases hmem : i ∈ acc
    · have h2 : ((remapOf vc acc).getD i none).isNone = false := by
        rw [remapOf_getD vc acc i hi, if_pos hmem]; rfl
      rw [if_neg (by rw [h2]; simp), if_pos hmem]
      exact ih acc (fun j hj => hin j (List.mem_cons_of_mem _ hj))
    · have h2 : ((remapOf vc acc).getD i none).isNone = true := by
        rw [remapOf_getD vc acc i hi, if_neg hmem]; rfl
      rw [if_pos h2, if_neg hmem]
      rw [remapOf_set vc acc i hi hmem]
      have hl : (acc ++ [i]).length = acc.length + 1 := by simp
      rw [← hl]
      exact ih (acc ++ [i]) (fun j hj => hin j (List.mem_cons_of_mem _ hj))

theorem compactRemap_eq (indices : List ℕ) (vc : ℕ)
    (hin : ∀ i ∈ indices, i < vc) :
    compactRemap indices vc =
      (remapOf vc (specFirstSeen indices),
       (specFirstSeen indices).length) := by
  rw [compactRemap, specFirstSeen]
  have h := compactRemap_go indices vc [] hin
  rw [remapOf_nil] at h
  simpa using h

theorem foldWrites_length (src : List ℚ) (off ooff : ℕ) :
    ∀ (ks : List ℕ) (b : List ℚ),
      (foldWrites src off ooff ks b).length = b.length := by
  intro ks
  induction ks with
  | nil => intro b; rfl
  | cons k t ih =>
    intro b
    rw [show foldWrites src off ooff (k :: t) b =
      foldWrites src off ooff t
        (b.set (off + k) (src.getD (ooff + k) 0)) from rfl, ih]
    simp

theorem foldWrites_miss (src : List ℚ) (off ooff : ℕ) :
    ∀ (ks : List ℕ) (b : List ℚ) (idx : ℕ),
      (∀ k ∈ ks, idx ≠ off + k) →
      (foldWrites src off ooff ks b)[idx]? = b[idx]? := by
  intro ks
  induction ks with
  | nil => intro b idx _; rfl
  | cons k t ih =>
    intro b idx h
    rw [show foldWrites src off ooff (k :: t) b =
      foldWrites src off ooff t
        (b.set (off + k) (src.getD (ooff + k) 0)) from rfl]
    rw [ih _ _ (fun k' hk' => h k' (List.mem_cons_of_mem _ hk'))]
    exact List.getElem?_set_ne
      (fun he => h k (List.mem_cons_self k t) he.symm)

theorem foldWrites_hit (src : List ℚ) (off ooff : ℕ) :
    ∀ (ks : List ℕ) (b : List ℚ) (k : ℕ),
      k ∈ ks → off + k < b.length →
      (foldWrites src off ooff ks b)[off + k]? =
        some (src.getD (ooff + k) 0) := by
  intro ks
  induction ks with
  | nil => intro b k hk _; exact absurd hk (List.not_mem_nil k)
  | cons k0 t ih =>
    intro b k hk hlen
    rw [show foldWrites src off ooff (k0 :: t) b =
      foldWrites src off ooff t
        (b.set (off + k0) (src.getD (ooff + k0) 0)) from rfl]
    by_cases hkt : k ∈ t
    · exact ih _ k hkt (by simpa using hlen)
    · have hk0 : k = k0 := by
        rcases List.mem_cons.mp hk with h | h
        · exact h
        · exact absurd h hkt
      subst hk0
      have hne : ∀ k' ∈ t, off + k ≠ off + k' := by
        intro k' hk' he
        have h3 : k = k' := by omega
        exact hkt (h3 ▸ hk')
      rw [foldWrites_miss src off ooff t _ _ hne]
      rw [List.getElem?_set_eq]
      exact hlen

theorem foldWrites_two (src : List ℚ) (ni oi : ℕ) (b : List ℚ) :
    foldWrites src (ni * 2) (oi * 2) (List.range 2) b =
      (b.set (ni * 2) (src.getD (oi * 2) 0)).set (ni * 2 + 1)
        (src.getD (oi * 2 + 1) 0) := by
  simp [foldWrites, show List.range 2 = [0, 1] from rfl]

theorem foldWrites_three (src : List ℚ) (ni oi : ℕ) (b : List ℚ) :
    foldWrites src (ni * 3) (oi * 3) (List.range 3) b =
      ((b.set (ni * 3) (src.getD (oi * 3) 0)).set (ni * 3 + 1)
        (src.getD (oi * 3 + 1) 0)).set (ni * 3 + 2)
        (src.getD (oi * 3 + 2) 0) := by
  simp [foldWrites, show List.range 3 = [0, 1, 2] from rfl]

theorem foldWrites_four (src : List ℚ) (ni oi : ℕ) (b : List ℚ) :
    foldWrites src (ni * 4) (oi * 4) (List.range 4) b =
      (((b.set (ni * 4) (src.getD (oi * 4) 0)).set (ni * 4 + 1)
        (src.getD (oi * 4 + 1) 0)).set (ni * 4 + 2)
        (src.getD (oi * 4 + 2) 0)).set (ni * 4 + 3)
        (src.getD (oi * 4 + 3) 0) := by
  simp [foldWrites, show List.range 4 = [0, 1, 2, 3] from rfl]

theorem enum_map_range {α : Type} (n : ℕ) (f : ℕ → α) :
    ((List.range n).map f).enum = (List.range n).map fun j => (j, f j) := by
  apply List.ext_getElem?
  intro i
  by_cases hi : i < n
  · have h1 : ((List.range n).map f)[i]? = some (f i) := by
      simp [List.getElem?_map, List.getElem?_range hi]
    rw [List.getElem?_enum, h1]
    simp [List.getElem?_map, List.getElem?_range hi]
  · rw [List.getElem?_eq_none, List.getElem?_eq_none]
    · simp; omega
    · simp; omega

theorem specGather_length (src : List ℚ) (s : ℕ) (seen : List ℕ) :
    (specGather src s seen).length = seen.length * s := by
  induction seen with
  | nil => simp [specGather]
  | cons oi rest ih =>
    rw [show specGather src s (oi :: rest) =
      ((List.range s).map fun k => src.getD (oi * s + k) 0) ++
        specGather src s rest from rfl]
    rw [List.length_append, List.length_map, List.length_range, ih,
      List.length_cons, Nat.succ_mul]
    omega

theorem specGather_getElem? (src : List ℚ) (s : ℕ) (seen : List ℕ) :
    ∀ ni k : ℕ, ni < seen.length → k < s →
      (specGather src s seen)[ni * s + k]? =
        some (src.getD (seen.getD ni 0 * s + k) 0) := by
  induction seen with
  | nil => intro ni k hni _; simp at hni
  | cons oi rest ih =>
    intro ni k hni hk
    rw [show specGather src s (oi :: rest) =
      ((List.range s).map fun k => src.getD (oi * s + k) 0) ++
        specGather src s rest from rfl]
    cases ni with
    | zero =>
      rw [show (0 : ℕ) * s + k = k from by omega]
      rw [List.getElem?_append, if_pos (by simpa using hk)]
      simp [List.getElem?_map, List.getElem?_range hk, List.getD]
    | succ ni =>
      have hrw : (ni + 1) * s + k = s + (ni * s + k) := by
        rw [Nat.succ_mul]; omega
      rw [hrw, List.getElem?_append_right (by simp)]
      rw [show s + (ni * s + k) -
        ((List.range s).map fun k => src.getD (oi * s + k) 0).length =
        ni * s + k from by simp]
      rw [ih ni k (by simpa using hni) hk]
      rfl

theorem getD_mem (seen : List ℕ) (ni : ℕ) (hni : ni < seen.length) :
    seen.getD ni 0 ∈ seen := by
  rw [List.getD_eq_getElem seen 0 hni]
  exact List.getElem_mem hni

theorem gatherFoldAux (src : List ℚ) (s : ℕ) (hs : 0 < s) (seen : List ℕ)
    (hnodup : seen.Nodup) :
    ∀ n : ℕ,
      ((List.range n).foldl
          (fun buf j =>
            gatherStep src s buf
              (j, if j ∈ seen then some (seen.indexOf j) else none))
          (List.replicate (seen.length * s) 0)).length =
        seen.length * s ∧
      ∀ ni k : ℕ, ni < seen.length → k < s →
        ((List.range n).foldl
            (fun buf j =>
              gatherStep src s buf
                (j, if j ∈ seen then some (seen.indexOf j) else none))
            (List.replicate (seen.length * s) 0))[ni * s + k]? =
          some (if seen.getD ni 0 < n then
            src.getD (seen.getD ni 0 * s + k) 0 else 0) := by
  intro n
  induction n with
  | zero =>
    constructor
    · simp
    · intro ni k hni hk
      have hlt : ni * s + k < seen.length * s := by
        have h1 : ni * s + k < (ni + 1) * s := by rw [Nat.succ_mul]; omega
        have h2 : (ni + 1) * s ≤ seen.length * s :=
          Nat.mul_le_mul_right s hni
        omega
      simp [List.getElem?_replicate, hlt]
  | succ n ih =>
    obtain ⟨ihlen, ihval⟩ := ih
    rw [List.range_succ, List.foldl_append]
    simp only [List.foldl_cons, List.foldl_nil]
    by_cases hn : n ∈ seen
    · rw [if_pos hn, gatherStep_some]
      constructor
      · rw [foldWrites_length, ihlen]
      · intro ni k hni hk
        have hidxlt : seen.indexOf n < seen.length :=
          List.indexOf_lt_length.mpr hn
        by_cases hni0 : ni = seen.indexOf n
        · subst hni0
          have hlen : seen.indexOf n * s + k <
              ((List.range n).foldl
                (fun buf j =>
                  gatherStep src s buf
                    (j, if j ∈ seen then some (seen.indexOf j) else none))
                (List.replicate (seen.length * s) 0)).length := by
            rw [ihlen]
            have h1 : seen.indexOf n * s + k <
                (seen.indexOf n + 1) * s := by
              rw [Nat.succ_mul]; omega
            have h2 : (seen.indexOf n + 1) * s ≤ seen.length * s :=
              Nat.mul_le_mul_right s hidxlt
            omega
          rw [foldWrites_hit src _ _ (List.range s) _ k
            (List.mem_range.mpr hk) hlen]
          have hgd : seen.getD (seen.indexOf n) 0 = n := by
            rw [List.getD_eq_getElem seen 0 hidxlt]
            exact List.getElem_indexOf hidxlt
          rw [hgd, if_pos (Nat.lt_succ_self n)]
        · have hne : ∀ k' ∈ List.range s,
              ni * s + k ≠ seen.indexOf n * s + k' := by
            intro k' hk' he
            rw [List.mem_range] at hk'
            have h1 : (ni * s + k) / s = ni := by
              rw [mul_comm, Nat.mul_add_div hs, Nat.div_eq_of_lt hk,
                add_zero]
            have h2 : (seen.indexOf n * s + k') / s = seen.indexOf n := by
              rw [mul_comm, Nat.mul_add_div hs, Nat.div_eq_of_lt hk',
                add_zero]
            apply hni0
            rw [← h1, he, h2]
          rw [foldWrites_miss src _ _ (List.range s) _ _ hne]
          rw [ihval ni k hni hk]
          have hnen : seen.getD ni 0 ≠ n := by
            intro he
            apply hni0
            have hgd : seen.getD ni 0 = seen[ni] :=
              List.getD_eq_getElem seen 0 hni
            rw [hgd] at he
            rw [← he, List.indexOf_getElem hnodup ni hni]
          by_cases hlt : seen.getD ni 0 < n
          · rw [if_pos hlt, if_pos (by omega)]
          · rw [if_neg hlt, if_neg (by omega)]
    · rw [if_neg hn, gatherStep_none]
      constructor
      · exact ihlen
      · intro ni k hni hk
        rw [ihval ni k hni hk]
        have hnen : seen.getD ni 0 ≠ n := by
          intro he
          exact hn (he ▸ getD_mem seen ni hni)
        by_cases hlt : seen.getD ni 0 < n
        · rw [if_pos hlt, if_pos (by omega)]
        · rw [if_neg hlt, if_neg (by omega)]

theorem gatherFold (src : List ℚ) (s : ℕ) (hs : 0 < s) (seen : List ℕ)
    (vc : ℕ) (hseen : ∀ i ∈ seen, i < vc) (hnodup : seen.Nodup) :
    ((remapOf vc seen).enum).foldl (gatherStep src s)
      (List.replicate (seen.length * s) 0) = specGather src s seen := by
  rw [remapOf, enum_map_range, List.foldl_map]
  show ((List.range vc).foldl
      (fun buf j =>
        gatherStep src s buf
          (j, if j ∈ seen then some (seen.indexOf j) else none))
      (List.replicate (seen.length * s) 0)) = specGather src s seen
  obtain ⟨hlen, hval⟩ := gatherFoldAux src s hs seen hnodup vc
  apply List.ext_getElem?
  intro idx
  by_cases hidx : idx < seen.length * s
  · have hdiv : idx / s < seen.length := (Nat.div_lt_iff_lt_mul hs).mpr hidx
    have hmod : idx % s < s := Nat.mod_lt idx hs
    have hsplit : idx = (idx / s) * s + idx % s := by
      rw [mul_comm]
      exact (Nat.div_add_mod idx s).symm
    rw [hsplit, hval (idx / s) (idx % s) hdiv hmod,
      specGather_getElem? src s seen _ _ hdiv hmod]
    rw [if_pos (hseen _ (getD_mem seen _ hdiv))]
  · rw [List.getElem?_eq_none, List.getElem?_eq_none]
    · rw [specGather_length]; omega
    · rw [hlen]; omega

theorem foldl_prod4 {α : Type}
    (f1 f2 f3 f4 : List ℚ → α → List ℚ) :
    ∀ (L : List α) (i1 i2 i3 i4 : List ℚ),
      L.foldl
        (fun bufs p => (f1 bufs.1 p, f2 bufs.2.1 p, f3 bufs.2.2.1 p,
          f4 bufs.2.2.2 p))
        (i1, i2, i3, i4) =
      (L.foldl f1 i1, L.foldl f2 i2, L.foldl f3 i3, L.foldl f4 i4) := by
  intro L
  induction L with
  | nil => intro i1 i2 i3 i4; rfl
  | cons p t ih =>
    intro i1 i2 i3 i4
    simp only [List.foldl_cons]
    exact ih _ _ _ _

theorem foldl_keep {α β : Type} :
    ∀ (L : List α) (b : β), L.foldl (fun b _ => b) b = b := by
  intro L
  induction L with
  | nil => intro b; rfl
  | cons p t ih => intro b; simp only [List.foldl_cons]; exact ih b

theorem foldl_gStep (flag : Bool) (src : List ℚ) (s : ℕ) :
    ∀ (L : List (ℕ × Option ℕ)) (b : List ℚ),
      L.foldl (gStep flag src s) b =
        if flag then L.foldl (gatherStep src s) b else b := by
  cases flag
  · intro L
    induction L with
    | nil => intro b; simp
    | cons p t ih =>
      intro b
      simp only [List.foldl_cons, gStep, Bool.false_eq_true, if_false]
      rw [ih b]
      simp
  · intro L b
    have hg : gStep true src s = gatherStep src s := by
      funext buf p
      simp [gStep]
    rw [hg]
    simp

theorem compactBufStep_eq (source : IndexedMesh) :
    compactBufStep source =
      fun bufs p =>
        (gatherStep source.positions 3 bufs.1 p,
         gStep source.has_normals source.normals 3 bufs.2.1 p,
         gStep source.has_uvs source.uvs 2 bufs.2.2.1 p,
         gStep source.has_colors source.colors 4 bufs.2.2.2 p) := by
  funext bufs p
  rcases p with ⟨a, _ | ni⟩
  · simp [compactBufStep, gStep, gatherStep]
  · simp only [compactBufStep, gStep, gatherStep, foldWrites_two,
      foldWrites_three, foldWrites_four]

/-- Claim C8: for every source mesh and every index list that is valid
for it (each index below the vertex count), `compact_mesh` equals the
spec-side `specCompact`: indices are scanned left-to-right with each
first-seen old index assigned the next new index, the output vertex table
holds exactly the referenced vertices in first-seen order, every attribute
present in the source is carried over, and the output indices are the
positions in that first-seen order. -/
theorem claim_C8 (indices : List ℕ) (source : IndexedMesh)
    (hin : ∀ i ∈ indices, i < source.vertex_count) :
    compact_mesh indices source = specCompact indices source := by
  by_cases hemp : indices.isEmpty
  · simp only [compact_mesh, specCompact]
    rw [if_pos hemp, if_pos hemp]
  · simp only [compact_mesh, specCompact]
    rw [if_neg hemp, if_neg hemp]
    rw [compactRemap_eq indices source.vertex_count hin]
    have hseen : ∀ i ∈ specFirstSeen indices, i < source.vertex_count :=
      fun i hi => hin i ((mem_specFirstSeen indices i).mp hi)
    have hnodup := nodup_specFirstSeen indices
    rw [compactBufStep_eq source, foldl_prod4]
    simp only [IndexedMesh.mk.injEq]
    refine ⟨?_, ?_, ?_, ?_, ?_, trivial⟩
    · exact gatherFold source.positions 3 (by omega) _ _ hseen hnodup
    · rw [foldl_gStep]
      cases hsn : source.has_normals
      · simp
      · simp only [if_true]
        exact gatherFold source.normals 3 (by omega) _ _ hseen hnodup
    · rw [foldl_gStep]
      cases hsu : source.has_uvs
      · simp
      · simp only [if_true]
        exact gatherFold source.uvs 2 (by omega) _ _ hseen hnodup
    · rw [foldl_gStep]
      cases hsc : source.has_colors
      · simp
      · simp only [if_true]
        exact gatherFold source.colors 4 (by omega) _ _ hseen hnodup
    · refine List.map_congr_left ?_
      intro i hi
      have hivc : i < source.vertex_count := hin i hi
      rw [remapOf_getD _ _ _ hivc,
        if_pos ((mem_specFirstSeen indices i).mpr hi)]
      rfl


/-- Witness for claim C8: compaction of `triMesh` under the index list
`[2, 0, 2]`, which reorders and deduplicates the referenced vertices. -/
theorem claim_C8_witness :
    (∀ i ∈ [2, 0, 2], i < triMesh.vertex_count) ∧
    compact_mesh [2, 0, 2] triMesh = specCompact [2, 0, 2] triMesh :=
  ⟨by decide, claim_C8 [2, 0, 2] triMesh (by decide)⟩

/-! ### Claim C9: shape of the serialized manifest -/

theorem tileChildrenJson_eq_map (cs : List TileNode) :
    tileChildrenJson cs = cs.map fun c => tile_node_to_json c none := by
  induction cs with
  | nil => rfl
  | cons c rest ih => rw [tileChildrenJson, List.map_cons, ih]

/-- Claim C9: the manifest built by `build_tileset_json` has
`asset.version = "1.1"` and generator `"photo-tiler"`, a top-level
`geometricError` equal to the root's, and a `root` tile rendered with the
caller's transform; every tile (rendered with any transform option)
records the 12-float axis-aligned `boundingVolume.box`
`[cx, cy, cz, hx, 0, 0, 0, hy, 0, 0, 0, hz]` of its bounds, its
`geometricError`, `refine "REPLACE"`, a `content.uri` exactly when the
node has content, `children` exactly when the child list is non-empty,
and a `transform` exactly when one is passed — which happens for the root
only, since children are rendered with no transform. -/
theorem claim_C9 (root : TileNode) (transform : List ℚ) :
    (build_tileset_json root transform).lookup ("asset".toList) =
      some (.obj [(("version".toList), .str ("1.1".toList)),
        (("generator".toList), .str ("photo-tiler".toList))]) ∧
    (build_tileset_json root transform).lookup
        ("geometricError".toList) = some (.num root.geometric_error) ∧
    (build_tileset_json root transform).lookup ("root".toList) =
      some (tile_node_to_json root (some transform)) ∧
    (∀ (node : TileNode) (topt : Option (List ℚ)),
      (tile_node_to_json node topt).lookup ("boundingVolume".toList) =
        some (.obj [(("box".toList),
          .arr ((bounding_volume_box node.bounds).map .num))]) ∧
      (tile_node_to_json node topt).lookup ("geometricError".toList) =
        some (.num node.geometric_error) ∧
      (tile_node_to_json node topt).lookup ("refine".toList) =
        some (.str ("REPLACE".toList)) ∧
      (tile_node_to_json node topt).lookup ("transform".toList) =
        topt.map (fun t => .arr (t.map .num)) ∧
      (tile_node_to_json node topt).lookup ("content".toList) =
        node.content.map
          (fun c => .obj [(("uri".toList), .str c.uri)]) ∧
      (tile_node_to_json node topt).lookup ("children".toList) =
        (if node.children.isEmpty then none
         else some (.arr (tileChildrenJson node.children)))) ∧
    (∀ cs : List TileNode,
      tileChildrenJson cs = cs.map fun c => tile_node_to_json c none) ∧
    (∀ bounds : BoundingBox,
      bounding_volume_box bounds =
        [bounds.center.x, bounds.center.y, bounds.center.z,
         bounds.half_extents.x, 0, 0, 0, bounds.half_extents.y, 0, 0, 0,
         bounds.half_extents.z]) := by
  refine ⟨rfl, rfl, rfl, ?_, tileChildrenJson_eq_map, fun _ => rfl⟩
  intro node topt
  rcases node with ⟨a, l, nb, ge, _ | c, _ | ⟨c0, cs⟩⟩ <;>
    rcases topt with _ | t <;>
    exact ⟨rfl, rfl, rfl, rfl, rfl, rfl⟩

end Theorems

end PhotoTiler
